import Mathlib

/-!
Verification of the streamable-topic engine (Mongo/Redis backend).

Shallow embedding of:
 * the producer `MongoRedisTopicProducer` (`src/backends/mongoRedis/producer.ts`):
   id allocation via the `nextids` counter, `pushMessageToTopic`, the
   fire-and-forget redis broadcast with its 10-second retry loop;
 * the consumer `MongoRedisTopicConsumer` (`src/backends/mongoRedis/consumer.ts`):
   `fetchNextMessagesFromMongo`, `pollForNewMessages`, the one-second polling
   interval of `streamMessagesFrom`, the redis wake handler, `stop`, and the
   state guards;
 * the log-compaction overlay `TopicSetter` (`src/topicSetter.ts`):
   `processMessage`, `setLogCompactedPayload`, `setPayload`,
   `produceWaitingMessages`.

Wall-clock times are natural numbers; mongo documents are lists; the payload
type is an arbitrary `T`.  JavaScript truthiness of the optional
`logCompactId` string is modelled explicitly (`""` is falsy).  Suspension
points of the async code (the single `await` of the fetch inside a poll step)
are made explicit in a small-step scheduler (`step`/`runTrace`) so that
interleavings of `stop` with an in-flight poll can be analysed.
-/

set_option linter.unusedVariables false

namespace StreamableTopic

/-- A stored topic message (`MongoTopicMessageDocument` in
`src/backends/mongoRedis/types.ts`): `_id` (here `id`) is the allocated
sequence number; `shardingKey` is `Option` because the setter invokes the
producer without supplying one (it is `undefined` at runtime). -/
structure Msg (T : Type) where
  id : Nat
  createdAt : Nat
  shardingKey : Option String
  logCompactId : Option String
  payload : T
deriving Repr, DecidableEq

/-- JavaScript truthiness of `logCompactId`: `if (logCompactId) { ... }` in
`pushMessageToTopic` drops the field when the string is empty. -/
def truthy : Option String → Option String
  | some s => if s = "" then none else some s
  | none => none

/-! ## Producer (`src/backends/mongoRedis/producer.ts`) -/

/-- Producer state: `seq` is the current value of the per-topic counter in the
`nextids` collection (`0` when the counter document is missing, because
`findOneAndUpdate` upserts with `$inc: 1`), `docs` the topic collection. -/
structure ProducerState (T : Type) where
  seq : Nat
  docs : List (Msg T)
  isStarting : Bool
  isStopped : Bool
deriving Repr, DecidableEq

inductive PushError
  | alreadyStopped
  | notAcked
deriving Repr, DecidableEq

/-- Result of one `pushMessageToTopic` call: `result = none` means the promise
resolved; `broadcastStarted` records whether the fire-and-forget
`broadcastNewMessageSignalToRedis()` call was initiated. -/
structure PushResult (T : Type) where
  result : Option PushError
  state : ProducerState T
  broadcastStarted : Bool
deriving Repr, DecidableEq

/-- `getNextId` (producer.ts lines 82-106): atomic `$inc` by one with
`returnDocument: "after"`, so the first allocated id is `1`. -/
def getNextId (s : ProducerState T) : Nat × ProducerState T :=
  (s.seq + 1, { s with seq := s.seq + 1 })

/-- `pushMessageToTopic(payload, shardingKey, logCompactId?)` (producer.ts
lines 108-150).  `ack` is the environment's choice of whether `insertOne` is
acknowledged.  The counter is bumped before the insert; a non-acknowledged
insert throws after the counter already advanced; the broadcast is initiated
only after an acknowledged insert and is not awaited. -/
def pushMessageToTopic (s : ProducerState T) (now : Nat) (payload : T)
    (shardingKey : Option String) (logCompactId : Option String) (ack : Bool) :
    PushResult T :=
  if s.isStopped then ⟨some .alreadyStopped, s, false⟩
  else
    let alloc := getNextId s
    let msgDoc : Msg T := ⟨alloc.1, now, shardingKey, truthy logCompactId, payload⟩
    if ack then ⟨none, { alloc.2 with docs := alloc.2.docs ++ [msgDoc] }, true⟩
    else ⟨some .notAcked, alloc.2, false⟩

/-- Arguments of one producer push, used to talk about arbitrary sequences of
later pushes. -/
structure PushArgs (T : Type) where
  now : Nat
  payload : T
  shardingKey : Option String
  logCompactId : Option String
  ack : Bool
deriving Repr, DecidableEq

/-- Fold a list of pushes over the producer state. -/
def applyPushes (s : ProducerState T) : List (PushArgs T) → ProducerState T
  | [] => s
  | a :: rest =>
      applyPushes (pushMessageToTopic s a.now a.payload a.shardingKey a.logCompactId a.ack).state rest

/-- Serial pushes of a list of payloads by one producer, every insert
acknowledged, a fixed sharding key and no compaction id. -/
def pushSerial (now : Nat) (key : String) : ProducerState T → List T → ProducerState T
  | s, [] => s
  | s, p :: ps => pushSerial now key (pushMessageToTopic s now p (some key) none true).state ps

/-- The records a serial push sequence appends: ids `seq+1, seq+2, ...`. -/
def mkRecords (now : Nat) (key : String) (seq : Nat) : List T → List (Msg T)
  | [] => []
  | p :: ps => ⟨seq + 1, now, some key, none, p⟩ :: mkRecords now key (seq + 1) ps

/-- `broadcastNewMessageSignalToRedis` (producer.ts lines 152-172), unfolded
into its attempt sequence.  Attempt `0` is the call made from the push;
attempt `k+1` is the retry scheduled 10 seconds after attempt `k` failed.
The function first re-checks `isStopped` and throws without retrying when the
producer was stopped (`alive k = false`); otherwise it publishes, and on a
publish exception (`pubOk k = false`) schedules the next attempt.
`broadcastAttemptMade started alive pubOk k = true` means attempt `k` runs. -/
def broadcastAttemptMade (started : Bool) (alive pubOk : Nat → Bool) : Nat → Bool
  | 0 => started
  | k + 1 => broadcastAttemptMade started alive pubOk k && alive k && !pubOk k

/-- The wake token reaches redis at attempt `k`. -/
def broadcastPublishesAt (started : Bool) (alive pubOk : Nat → Bool) (k : Nat) : Bool :=
  broadcastAttemptMade started alive pubOk k && alive k && pubOk k

/-- Wall-clock time of attempt `k`: each retry is `setTimeout(…, 10 * 1000)`
after the previous failing attempt. -/
def broadcastAttemptTime (pushedAt k : Nat) : Nat :=
  pushedAt + 10 * k

/-! ## Sorting

`fetchNextMessagesFromMongo` issues `.sort({_id: 1})`, and the setter sorts
its compacted queue with a `queuedAt` comparator (stable by the array-sort
specification).  Both are embedded with one stable structural insertion sort
keyed by a natural number. -/

/-- Insert `a` into `l` before the first element with a key not smaller than
`a`'s, so later-queued elements never overtake earlier ones of equal key. -/
def insertSorted (key : α → Nat) (a : α) : List α → List α
  | [] => [a]
  | b :: l => if key b < key a then b :: insertSorted key a l else a :: b :: l

/-- Stable sort ascending by `key`. -/
def sortByKey (key : α → Nat) : List α → List α
  | [] => []
  | a :: l => insertSorted key a (sortByKey key l)

/-! ## Consumer (`src/backends/mongoRedis/consumer.ts`) -/

/-- Consumer flags and cursor, as in the class fields of
`MongoRedisTopicConsumer`; `pollingLoopActive` models whether the
`setInterval` handle is live. -/
structure ConsumerState where
  isStarting : Bool
  isStreaming : Bool
  isPolling : Bool
  isMoreMessages : Bool
  isStopped : Bool
  hasCalledNoMoreMessages : Bool
  lastId : Option Nat
  pollingLoopActive : Bool
deriving Repr, DecidableEq

/-- State right after the constructor. -/
def initialConsumer : ConsumerState :=
  ⟨false, false, false, true, false, false, none, false⟩

/-- State of a consumer that started and entered `streamMessagesFrom` with
cursor `li`; `latch` is `hasCalledNoMoreMessages`. -/
def streamingConsumer (li : Option Nat) (latch : Bool) : ConsumerState :=
  ⟨true, true, false, true, false, latch, li, true⟩

/-- The `_id > lastId` clause of the fetch query (absent for a `null`
cursor). -/
def cursorMatch (lastId : Option Nat) (m : Msg T) : Bool :=
  match lastId with
  | none => true
  | some l => decide (l < m.id)

/-- `fetchNextMessagesFromMongo(limit, lastId)` (consumer.ts lines 274-297):
`find({_id: {$gt: lastId}}).limit(limit).sort({_id: 1})` — mongo applies the
sort before the limit, so this is the `limit` smallest matching ids. -/
def fetchNextMessagesFromMongo (limit : Nat) (lastId : Option Nat)
    (docs : List (Msg T)) : List (Msg T) :=
  (sortByKey (·.id) (docs.filter (cursorMatch lastId))).take limit

/-- Behaviour of one `messageCallback` invocation.  The callback returns a
promise; `syncThrow` is an exception raised before the first suspension (the
only kind the consumer's `try`/`catch` can see, since the call is not
awaited), `asyncReject` a rejection of the returned promise. -/
inductive CbOutcome
  | ok
  | syncThrow (e : String)
  | asyncReject (e : String)
deriving Repr, DecidableEq

/-- Observable callback invocations of the consumer.  `message m r` records a
`messageCallback(m)` invocation that did not throw synchronously; `r = true`
marks that the returned promise later rejects with nobody listening. -/
inductive Event (T : Type)
  | message (m : Msg T) (rejectedLater : Bool)
  | crashed (e : String)
  | crashCbError (e : String)
  | drained
deriving Repr, DecidableEq

def isMessageEvent : Event T → Bool
  | .message _ _ => true
  | _ => false

def isCrashedEvent : Event T → Bool
  | .crashed _ => true
  | _ => false

def isDrainedEvent : Event T → Bool
  | .drained => true
  | _ => false

def messagePayloads (evs : List (Event T)) : List T :=
  evs.filterMap fun e =>
    match e with
    | .message m _ => some m.payload
    | _ => none

def messageIds (evs : List (Event T)) : List Nat :=
  evs.filterMap fun e =>
    match e with
    | .message m _ => some m.id
    | _ => none

/-- `stop()` (consumer.ts lines 105-116): clear the interval, latch
`isStopped`. -/
def stopConsumer (s : ConsumerState) : ConsumerState :=
  { s with isStopped := true, pollingLoopActive := false }

/-- The per-record loop of `pollForNewMessages` (consumer.ts lines 240-270):
advance `lastId` to the record's id, then invoke `messageCallback` WITHOUT
awaiting it.  A synchronous throw is caught: `crashCallback` runs (its own
exception is logged and swallowed — `crashCb e` gives that exception when it
throws), `stop()` runs, and the loop returns.  An async rejection is
invisible to the `catch` and the loop continues. -/
def processBatch (onMsg : Msg T → CbOutcome) (crashCb : String → Option String) :
    List (Msg T) → ConsumerState → ConsumerState × List (Event T)
  | [], s => (s, [])
  | m :: rest, s =>
    let s1 := { s with lastId := some m.id }
    match onMsg m with
    | .ok =>
        let r := processBatch onMsg crashCb rest s1
        (r.1, .message m false :: r.2)
    | .asyncReject _ =>
        let r := processBatch onMsg crashCb rest s1
        (r.1, .message m true :: r.2)
    | .syncThrow e =>
        (stopConsumer s1,
          match crashCb e with
          | some e2 => [.crashed e, .crashCbError e2]
          | none => [.crashed e])

/-- Tail of `pollForNewMessages` once the fetch resolved with `batch`: an
empty batch clears `isMoreMessages`, otherwise the records are processed. -/
def pollProcess (onMsg : Msg T → CbOutcome) (crashCb : String → Option String)
    (batch : List (Msg T)) (s : ConsumerState) : ConsumerState × List (Event T) :=
  if batch.isEmpty then ({ s with isMoreMessages := false }, [])
  else processBatch onMsg crashCb batch s

/-- `pollForNewMessages` (consumer.ts lines 230-272) as one big step: fetch up
to 100 records past the cursor, then process them. -/
def pollForNewMessages (onMsg : Msg T → CbOutcome) (crashCb : String → Option String)
    (s : ConsumerState) (docs : List (Msg T)) : ConsumerState × List (Event T) :=
  pollProcess onMsg crashCb (fetchNextMessagesFromMongo 100 s.lastId docs) s

/-! ### The streaming loop as a small-step machine

The `setInterval` body of `streamMessagesFrom` (consumer.ts lines 186-224) has
exactly one suspension point per poll: the awaited fetch.  `Act.tick` runs the
interval body up to that suspension (or to completion on the non-polling
branches); `Act.resume` completes a suspended poll; `Act.wake` is the redis
`"message"` handler; `Act.busReady` the `FIRST_READY`/`RECONNECTED` lifecycle
handler; `Act.stopCall` a `stop()` call; `Act.produce` an insert by some
producer.  Any interleaving of these actions is a trace. -/

structure Machine (T : Type) where
  cs : ConsumerState
  docs : List (Msg T)
  inflight : Option (List (Msg T))
deriving Repr, DecidableEq

inductive Act (T : Type)
  | tick
  | resume
  | wake
  | busReady
  | stopCall
  | produce (m : Msg T)
deriving Repr, DecidableEq

def step (onMsg : Msg T → CbOutcome) (crashCb : String → Option String)
    (M : Machine T) : Act T → Machine T × List (Event T)
  | .tick =>
    if M.cs.isStopped then
      ({ M with cs := { M.cs with pollingLoopActive := false } }, [])
    else if !M.cs.isMoreMessages then
      if !M.cs.hasCalledNoMoreMessages then
        ({ M with cs := { M.cs with hasCalledNoMoreMessages := true } }, [.drained])
      else (M, [])
    else if M.cs.isPolling then (M, [])
    else
      ({ M with cs := { M.cs with isPolling := true },
                inflight := some (fetchNextMessagesFromMongo 100 M.cs.lastId M.docs) }, [])
  | .resume =>
    match M.inflight with
    | none => (M, [])
    | some batch =>
      let r := pollProcess onMsg crashCb batch M.cs
      ({ M with cs := { r.1 with isPolling := false }, inflight := none }, r.2)
  | .wake => ({ M with cs := { M.cs with isMoreMessages := true } }, [])
  | .busReady => ({ M with cs := { M.cs with isMoreMessages := true } }, [])
  | .stopCall => ({ M with cs := stopConsumer M.cs }, [])
  | .produce m => ({ M with docs := M.docs ++ [m] }, [])

def runTrace (onMsg : Msg T → CbOutcome) (crashCb : String → Option String)
    (M : Machine T) : List (Act T) → Machine T × List (Event T)
  | [] => (M, [])
  | a :: rest =>
    let r1 := step onMsg crashCb M a
    let r2 := runTrace onMsg crashCb r1.1 rest
    (r2.1, r1.2 ++ r2.2)

/-- A callback that always completes normally. -/
def onMsgOk : Msg T → CbOutcome := fun _ => .ok

/-- Trace of `n` polling rounds: each interval firing followed by the
completion of the poll it may have started. -/
def drainTrace (T : Type) : Nat → List (Act T)
  | 0 => []
  | n + 1 => .tick :: .resume :: drainTrace T n

/-! ## State guards (producer.ts lines 44-51, 63-72, 108-111; consumer.ts
lines 64-69, 170-177) -/

inductive GuardError
  | alreadyStarting
  | alreadyStreaming
  | notStarted
  | stopped
deriving Repr, DecidableEq

/-- Producer `start`: checks `isStopped` then `isStarting`, both before any
await. -/
def producerStart (s : ProducerState T) : Option GuardError × ProducerState T :=
  if s.isStopped then (some .stopped, s)
  else if s.isStarting then (some .alreadyStarting, s)
  else (none, { s with isStarting := true })

/-- Producer `stop`: refuses a second stop, then latches `isStopped`. -/
def producerStop (s : ProducerState T) : Option GuardError × ProducerState T :=
  if s.isStopped then (some .stopped, s)
  else (none, { s with isStopped := true })

/-- Consumer `start` guard: only `isStarting` is checked — there is no
`isStopped` check. -/
def consumerStart (s : ConsumerState) : Option GuardError × ConsumerState :=
  if s.isStarting then (some .alreadyStarting, s)
  else (none, { s with isStarting := true })

/-- Consumer `streamMessagesFrom` guard: a non-started consumer is refused,
then a second stream; `isStopped` is not consulted. -/
def consumerStream (s : ConsumerState) (fromId : Option Nat) :
    Option GuardError × ConsumerState :=
  if !s.isStarting then (some .notStarted, s)
  else if s.isStreaming then (some .alreadyStreaming, s)
  else (none, { s with isStreaming := true, lastId := fromId, pollingLoopActive := true })

/-! ## Topic setter (`src/topicSetter.ts`) -/

/-- One pending compacted write (`NewCompactedMessage`). -/
structure CompactedMsg (T : Type) where
  payload : T
  logCompactId : String
  queuedAt : Nat
deriving Repr, DecidableEq

/-- Setter state.  `memoryHash` and `messagesToApply` are JavaScript
`Record`s, embedded as insertion-ordered association lists. -/
structure SetterState (T : Type) where
  memoryHash : List (String × String)
  isReady : Bool
  messagesToApply : List (String × CompactedMsg T)
  messagesToPush : List T
  isProducingMessages : Bool
  lastTriggered : Nat
deriving Repr, DecidableEq

/-- Key update on a `Record`: overwrite in place, or append a fresh key. -/
def recordSet (m : List (String × β)) (k : String) (v : β) : List (String × β) :=
  if m.any (fun kv => kv.1 = k) then
    m.map (fun kv => if kv.1 = k then (k, v) else kv)
  else m ++ [(k, v)]

/-- `processMessage` (topicSetter.ts lines 151-157): streamed-back messages
carrying a (truthy) `logCompactId` update `memoryHash`; the rest only warn. -/
def processMessage (hashF : T → String) (s : SetterState T) (msg : Msg T) :
    SetterState T :=
  match msg.logCompactId with
  | some lc =>
      if lc = "" then s
      else { s with memoryHash := recordSet s.memoryHash lc (hashF msg.payload) }
  | none => s

inductive SetterError
  | notReady
deriving Repr, DecidableEq

/-- `setLogCompactedPayload` (topicSetter.ts lines 159-184): refuse before
ready; drop when the hash matches the remembered hash for that id; otherwise
overwrite the pending entry for that id.  `memoryHash` is never written. -/
def setLogCompactedPayload (hashF : T → String) (now : Nat) (s : SetterState T)
    (logCompactId : String) (payload : T) : Except SetterError (SetterState T) :=
  if !s.isReady then .error .notReady
  else
    let enq : SetterState T :=
      { s with messagesToApply :=
          recordSet s.messagesToApply logCompactId ⟨payload, logCompactId, now⟩ }
    match s.memoryHash.lookup logCompactId with
    | some h => if hashF payload = h then .ok s else .ok enq
    | none => .ok enq

/-- `setPayload` (topicSetter.ts lines 186-195): append-queue writes are never
deduplicated. -/
def setPayload (s : SetterState T) (payload : T) : Except SetterError (SetterState T) :=
  if !s.isReady then .error .notReady
  else .ok { s with messagesToPush := s.messagesToPush ++ [payload] }

/-- One outbound `producer.pushMessageToTopic` call made by the flush, with
the values bound to the producer's positional parameters
`(payload, shardingKey, logCompactId?)`. -/
structure PushCall (T : Type) where
  payload : T
  shardingKeyArg : Option String
  logCompactIdArg : Option String
  ok : Bool
deriving Repr, DecidableEq

/-- The append-queue drain calls `pushMessageToTopic(next)`: no sharding key
and no compaction id are supplied. -/
def appendCall (p : T) (ok : Bool) : PushCall T := ⟨p, none, none, ok⟩

/-- The compacted-queue drain calls
`pushMessageToTopic(next.payload, next.logCompactId)`: the compaction id is
bound to the producer's SECOND positional parameter, the sharding key; the
`logCompactId` parameter is left undefined. -/
def compactedCall (e : CompactedMsg T) (ok : Bool) : PushCall T :=
  ⟨e.payload, some e.logCompactId, none, ok⟩

/-- Result of draining `messagesToPush` with outcome oracle `pushOk` (indexed
by the number of producer calls already made): on the first failure the
failing payload is unshifted back and the flush throws. -/
structure AppendDrain (T : Type) where
  rem : List T
  calls : List (PushCall T)
  succeeded : Bool
  nextIdx : Nat
deriving Repr, DecidableEq

def drainAppend (pushOk : Nat → Bool) (i : Nat) : List T → AppendDrain T
  | [] => ⟨[], [], true, i⟩
  | p :: rest =>
    if pushOk i then
      let r := drainAppend pushOk (i + 1) rest
      ⟨r.rem, appendCall p true :: r.calls, r.succeeded, r.nextIdx⟩
    else ⟨p :: rest, [appendCall p false], false, i + 1⟩

/-- Result of draining the sorted compacted queue: each success deletes that
entry's key from `messagesToApply` (collected in `pushedIds`); the first
failure leaves the entry and aborts. -/
structure CompactedDrain (T : Type) where
  rem : List (CompactedMsg T)
  pushedIds : List String
  calls : List (PushCall T)
  succeeded : Bool
  nextIdx : Nat
deriving Repr, DecidableEq

def drainCompacted (pushOk : Nat → Bool) (i : Nat) :
    List (CompactedMsg T) → CompactedDrain T
  | [] => ⟨[], [], [], true, i⟩
  | e :: rest =>
    if pushOk i then
      let r := drainCompacted pushOk (i + 1) rest
      ⟨r.rem, e.logCompactId :: r.pushedIds, compactedCall e true :: r.calls,
        r.succeeded, r.nextIdx⟩
    else ⟨e :: rest, [], [compactedCall e false], false, i + 1⟩

/-- The compacted queue in the order the flush sends it: `Object.values` in
insertion order, then the stable `queuedAt` ascending sort. -/
def sortedQueue (s : SetterState T) : List (CompactedMsg T) :=
  sortByKey (·.queuedAt) (s.messagesToApply.map Prod.snd)

structure FlushResult (T : Type) where
  state : SetterState T
  calls : List (PushCall T)
  succeeded : Bool
deriving Repr, DecidableEq

/-- `produceWaitingMessages` (topicSetter.ts lines 106-149): drain the append
queue in insertion order, then the compacted queue in ascending `queuedAt`
order; a success deletes the entry from `messagesToApply`; a failure aborts
the flush leaving the remaining entries in place.  `memoryHash` is not
touched anywhere in the flush. -/
def produceWaitingMessages (pushOk : Nat → Bool) (s : SetterState T) : FlushResult T :=
  let a := drainAppend pushOk 0 s.messagesToPush
  if a.succeeded then
    let c := drainCompacted pushOk a.nextIdx (sortedQueue s)
    ⟨{ s with
        messagesToPush := [],
        messagesToApply :=
          s.messagesToApply.filter (fun kv => !(c.pushedIds.contains kv.1)) },
      a.calls ++ c.calls, c.succeeded⟩
  else ⟨{ s with messagesToPush := a.rem }, a.calls, false⟩

/-! ## Auxiliary definitions for the statements and witnesses -/

/-- Cursor value after a batch is processed: the last record's id, or the old
cursor when the batch is empty. -/
def lastIdAfter (batch : List (Msg T)) (li : Option Nat) : Option Nat :=
  match batch.getLast? with
  | some m => some m.id
  | none => li

/-- The events the crash path of a poll emits: `crashCallback(e)`, whose own
exception (if any) is logged and swallowed. -/
def crashEvents (T : Type) (crashCb : String → Option String) (e : String) :
    List (Event T) :=
  match crashCb e with
  | some e2 => [.crashed e, .crashCbError e2]
  | none => [.crashed e]

/-- Number of `onDrained` invocations in an event list. -/
def drainedCount (evs : List (Event T)) : Nat :=
  (evs.filter isDrainedEvent).length

/-- A concrete stored message for witnesses: id `i`, payload `100 + i`. -/
def msgN (i : Nat) : Msg Nat :=
  ⟨i, 0, some "k", none, 100 + i⟩

/-- A concrete callback that throws synchronously on id 3. -/
def onMsgThrow3 : Msg Nat → CbOutcome :=
  fun m => if m.id = 3 then .syncThrow "boom" else .ok

/-- A concrete callback whose returned promise rejects on id 1. -/
def onMsgReject1 : Msg Nat → CbOutcome :=
  fun m => if m.id = 1 then .asyncReject "boom" else .ok

/-- A crash callback that never throws. -/
def crashCbNone : String → Option String := fun _ => none

/-- Unwrap an `Except`, with a default for the error case (used only to build
concrete witness states). -/
def okOr (d : α) : Except ε α → α
  | .ok a => a
  | .error _ => d

/-- Consumer state after a poll found the topic exhausted: like
`streamingConsumer` but with `isMoreMessages` cleared. -/
def idleConsumer (li : Option Nat) (latch : Bool) : ConsumerState :=
  ⟨true, true, false, false, false, latch, li, true⟩

/-- Topic contents after one freshly started producer (counter at `s0seq`,
empty collection) pushed the payloads `ps` serially, every insert
acknowledged. -/
def serialTopicDocs (now : Nat) (key : String) (s0seq : Nat) (ps : List T) :
    List (Msg T) :=
  (pushSerial now key ⟨s0seq, [], true, false⟩ ps).docs

/-- A full streaming session from cursor `null`: enough polling rounds to
exhaust the topic. -/
def streamAllRun (crashCb : String → Option String) (docs : List (Msg T)) :
    Machine T × List (Event T) :=
  runTrace onMsgOk crashCb ⟨streamingConsumer none false, docs, none⟩
    (drainTrace T (docs.length + 1))

/-- A ready setter with one pending compacted entry (payload 7 under
compaction id "u1"). -/
def setterReady1 : SetterState Nat :=
  ⟨[], true, [("u1", ⟨7, "u1", 3⟩)], [], false, 0⟩

/-- Structural hash used for the concrete setter runs. -/
def natHash : Nat → String := fun n => toString n

/-- An empty, ready setter. -/
def setterReady0 : SetterState Nat :=
  ⟨[], true, [], [], false, 0⟩

/-- First `setLogCompactedPayload("u1", 5)` on the empty ready setter. -/
def c6AfterSet1 : SetterState Nat :=
  okOr setterReady0 (setLogCompactedPayload natHash 1 setterReady0 "u1" 5)

/-- First flush (all producer pushes succeed). -/
def c6Flush1 : FlushResult Nat :=
  produceWaitingMessages (fun _ => true) c6AfterSet1

/-- Second `setLogCompactedPayload("u1", 5)` — equal payload, equal hash —
after the first flush but before any streamed-back message is observed. -/
def c6AfterSet2 : SetterState Nat :=
  okOr setterReady0 (setLogCompactedPayload natHash 2 c6Flush1.state "u1" 5)

/-- Second flush. -/
def c6Flush2 : FlushResult Nat :=
  produceWaitingMessages (fun _ => true) c6AfterSet2

/-- The compacted-queue drain a flush of `s` performs (its call counter
continues after the append-queue drain). -/
def compactedDrainOf (pushOk : Nat → Bool) (s : SetterState T) : CompactedDrain T :=
  drainCompacted pushOk (drainAppend pushOk 0 s.messagesToPush).nextIdx (sortedQueue s)

/-- A ready setter that has already observed a compacted message: hash "5"
remembered for compaction id "u1". -/
def setterObserved : SetterState Nat :=
  ⟨[("u1", "5")], true, [], [], false, 0⟩

/-! ## Lemmas about the sort -/

theorem insertSorted_perm (key : α → Nat) (a : α) (l : List α) :
    (insertSorted key a l).Perm (a :: l) := by
  induction l with
  | nil => simp [insertSorted]
  | cons b l ih =>
    by_cases h : key b < key a
    · simp only [insertSorted, if_pos h]
      exact (ih.cons b).trans (List.Perm.swap a b l)
    · simp [insertSorted, if_neg h]

theorem sortByKey_perm (key : α → Nat) (l : List α) :
    (sortByKey key l).Perm l := by
  induction l with
  | nil => simp [sortByKey]
  | cons a l ih =>
    exact (insertSorted_perm key a (sortByKey key l)).trans (ih.cons a)

theorem insertSorted_pairwise (key : α → Nat) (a : α) (l : List α)
    (h : l.Pairwise (fun x y => key x ≤ key y)) :
    (insertSorted key a l).Pairwise (fun x y => key x ≤ key y) := by
  induction l with
  | nil => simp [insertSorted]
  | cons b l ih =>
    rcases List.pairwise_cons.mp h with ⟨hb, hl⟩
    by_cases hba : key b < key a
    · simp only [insertSorted, if_pos hba]
      refine List.pairwise_cons.mpr ⟨?_, ih hl⟩
      intro x hx
      rcases List.mem_cons.mp ((insertSorted_perm key a l).mem_iff.mp hx) with rfl | hx
      · exact Nat.le_of_lt hba
      · exact hb x hx
    · simp only [insertSorted, if_neg hba]
      refine List.pairwise_cons.mpr ⟨?_, h⟩
      intro x hx
      rcases List.mem_cons.mp hx with rfl | hx
      · exact Nat.le_of_not_lt hba
      · exact Nat.le_trans (Nat.le_of_not_lt hba) (hb x hx)

theorem sortByKey_pairwise (key : α → Nat) (l : List α) :
    (sortByKey key l).Pairwise (fun x y => key x ≤ key y) := by
  induction l with
  | nil => simp [sortByKey]
  | cons a l ih => exact insertSorted_pairwise key a _ ih

theorem insertSorted_eq_cons (key : α → Nat) (a : α) (l : List α)
    (h : ∀ b ∈ l, key a ≤ key b) : insertSorted key a l = a :: l := by
  cases l with
  | nil => rfl
  | cons b l =>
    have : ¬ key b < key a := Nat.not_lt.mpr (h b (by simp))
    simp [insertSorted, this]

theorem sortByKey_eq_self (key : α → Nat) (l : List α)
    (h : l.Pairwise (fun x y => key x ≤ key y)) : sortByKey key l = l := by
  induction l with
  | nil => rfl
  | cons a l ih =>
    rcases List.pairwise_cons.mp h with ⟨ha, hl⟩
    simp only [sortByKey, ih hl]
    exact insertSorted_eq_cons key a l ha

/-! ## Lemmas about the fetch -/

theorem fetch_length_le (limit : Nat) (li : Option Nat) (docs : List (Msg T)) :
    (fetchNextMessagesFromMongo limit li docs).length ≤ limit := by
  simpa [fetchNextMessagesFromMongo] using
    Nat.min_le_left limit (sortByKey (·.id) (docs.filter (cursorMatch li))).length

theorem fetch_mem (limit : Nat) (li : Option Nat) (docs : List (Msg T))
    (m : Msg T) (hm : m ∈ fetchNextMessagesFromMongo limit li docs) :
    m ∈ docs ∧ cursorMatch li m = true := by
  have h1 : m ∈ sortByKey (·.id) (docs.filter (cursorMatch li)) :=
    List.take_subset _ _ hm
  have h2 : m ∈ docs.filter (cursorMatch li) :=
    (sortByKey_perm _ _).mem_iff.mp h1
  exact ⟨List.mem_of_mem_filter h2, List.of_mem_filter h2⟩

theorem fetch_sorted (limit : Nat) (li : Option Nat) (docs : List (Msg T)) :
    (fetchNextMessagesFromMongo limit li docs).Pairwise (fun a b => a.id ≤ b.id) := by
  exact List.Pairwise.sublist (List.take_sublist _ _) (sortByKey_pairwise _ _)

theorem fetch_complete (limit : Nat) (li : Option Nat) (docs : List (Msg T))
    (h : (docs.filter (cursorMatch li)).length ≤ limit) :
    (fetchNextMessagesFromMongo limit li docs).Perm (docs.filter (cursorMatch li)) := by
  have hlen : (sortByKey (·.id) (docs.filter (cursorMatch li))).length ≤ limit := by
    rwa [(sortByKey_perm _ _).length_eq]
  rw [fetchNextMessagesFromMongo, List.take_of_length_le hlen]
  exact sortByKey_perm _ _

theorem fetch_of_sorted_drop (limit : Nat) (li : Option Nat) (docs : List (Msg T))
    (hsorted : docs.Pairwise (fun a b => a.id < b.id)) (k : Nat)
    (hcur : docs.filter (cursorMatch li) = docs.drop k) :
    fetchNextMessagesFromMongo limit li docs = (docs.drop k).take limit := by
  have hdrop : (docs.drop k).Pairwise (fun a b : Msg T => (·.id) a ≤ (·.id) b) :=
    (List.Pairwise.sublist (docs.drop_sublist k) hsorted).imp (fun h => Nat.le_of_lt h)
  rw [fetchNextMessagesFromMongo, hcur, sortByKey_eq_self _ _ hdrop]

theorem filter_gt_getElem (docs : List (Msg T))
    (hsorted : docs.Pairwise (fun a b => a.id < b.id)) (j : Nat) (hj : j < docs.length) :
    docs.filter (fun m => decide (docs[j].id < m.id)) = docs.drop (j + 1) := by
  induction docs generalizing j with
  | nil => simp at hj
  | cons d rest ih =>
    rcases List.pairwise_cons.mp hsorted with ⟨hd, hrest⟩
    cases j with
    | zero =>
      have hdd : ¬ d.id < d.id := Nat.lt_irrefl _
      simp only [List.getElem_cons_zero, List.filter_cons, decide_eq_true_eq,
        List.drop_succ_cons, List.drop_zero]
      rw [if_neg (by simpa using hdd)]
      exact List.filter_eq_self.mpr (fun x hx => by simpa using hd x hx)
    | succ j' =>
      have hj' : j' < rest.length := by simpa using hj
      have hmem : rest[j'] ∈ rest := List.getElem_mem hj'
      have hlt : d.id < rest[j'].id := hd _ hmem
      have hnot : ¬ rest[j'].id < d.id := Nat.lt_asymm hlt
      simp only [List.getElem_cons_succ, List.filter_cons, decide_eq_true_eq,
        List.drop_succ_cons]
      rw [if_neg (by simpa using hnot)]
      exact ih hrest j' hj'

/-! ## Lemmas about a poll step -/

theorem processBatch_crash (onMsg : Msg T → CbOutcome) (crashCb : String → Option String)
    (pre post : List (Msg T)) (mbad : Msg T) (e : String) (s : ConsumerState)
    (hpre : ∀ m ∈ pre, onMsg m = .ok) (hthrow : onMsg mbad = .syncThrow e) :
    processBatch onMsg crashCb (pre ++ mbad :: post) s =
      (stopConsumer { s with lastId := some mbad.id },
        pre.map (fun m => Event.message m false) ++ crashEvents T crashCb e) := by
  induction pre generalizing s with
  | nil =>
    simp only [List.nil_append, processBatch, hthrow, crashEvents]
    cases crashCb e <;> simp
  | cons m pre ih =>
    have hm : onMsg m = .ok := hpre m (by simp)
    have hpre2 : ∀ x ∈ pre, onMsg x = .ok := fun x hx => hpre x (by simp [hx])
    simp only [List.cons_append, processBatch, hm, List.append_eq]
    rw [ih _ hpre2]
    simp

theorem lastIdAfter_cons (m : Msg T) (rest : List (Msg T)) (li : Option Nat) :
    lastIdAfter (m :: rest) li = lastIdAfter rest (some m.id) := by
  cases rest with
  | nil => rfl
  | cons b l =>
    unfold lastIdAfter
    rw [List.getLast?_cons_cons]
    cases h : (b :: l).getLast? with
    | none => simp at h
    | some x => rfl

theorem processBatch_ok (crashCb : String → Option String) (batch : List (Msg T))
    (s : ConsumerState) :
    processBatch onMsgOk crashCb batch s =
      ({ s with lastId := lastIdAfter batch s.lastId },
        batch.map (fun m => Event.message m false)) := by
  induction batch generalizing s with
  | nil => simp [processBatch, lastIdAfter]
  | cons m rest ih =>
    simp only [processBatch, onMsgOk, ih, lastIdAfter_cons, List.map_cons]

theorem filter_crashed_of_messages (l : List (Msg T)) :
    ((l.map (fun m => Event.message m false)).filter isCrashedEvent) = [] := by
  induction l with
  | nil => rfl
  | cons m l ih => simpa [isCrashedEvent] using ih

theorem filter_message_of_messages (l : List (Msg T)) :
    ((l.map (fun m => Event.message m false)).filter isMessageEvent)
      = l.map (fun m => Event.message m false) := by
  induction l with
  | nil => rfl
  | cons m l ih => simpa [isMessageEvent] using ih

theorem filter_crashed_crashEvents (crashCb : String → Option String) (e : String) :
    ((crashEvents T crashCb e).filter isCrashedEvent) = [Event.crashed e] := by
  unfold crashEvents
  cases crashCb e <;> simp [isCrashedEvent]

theorem filter_message_crashEvents (crashCb : String → Option String) (e : String) :
    ((crashEvents T crashCb e).filter isMessageEvent) = [] := by
  unfold crashEvents
  cases crashCb e <;> simp [isMessageEvent]

/-- Claim C3: when the message callback throws synchronously on some record
of a fetched batch, the records before it were delivered (with `lastId`
advanced to each record's id before its callback ran), `lastId` ends at the
failing record's id, `crashCallback` fires exactly once with that error (its
own exception being swallowed), the consumer is stopped with the interval
cleared, and no record after the failing one is delivered. -/
theorem c3_callback_throw_crashes_consumer (onMsg : Msg T → CbOutcome)
    (crashCb : String → Option String) (s : ConsumerState) (docs : List (Msg T))
    (pre post : List (Msg T)) (mbad : Msg T) (e : String)
    (hbatch : fetchNextMessagesFromMongo 100 s.lastId docs = pre ++ mbad :: post)
    (hpre : ∀ m ∈ pre, onMsg m = .ok)
    (hthrow : onMsg mbad = .syncThrow e) :
    pollForNewMessages onMsg crashCb s docs =
      (stopConsumer { s with lastId := some mbad.id },
        pre.map (fun m => Event.message m false) ++ crashEvents T crashCb e)
    ∧ (pollForNewMessages onMsg crashCb s docs).1.lastId = some mbad.id
    ∧ (pollForNewMessages onMsg crashCb s docs).1.isStopped = true
    ∧ (pollForNewMessages onMsg crashCb s docs).1.pollingLoopActive = false
    ∧ ((pollForNewMessages onMsg crashCb s docs).2.filter isCrashedEvent)
        = [Event.crashed e]
    ∧ ((pollForNewMessages onMsg crashCb s docs).2.filter isMessageEvent)
        = pre.map (fun m => Event.message m false) := by
  have hne : ((pre ++ mbad :: post).isEmpty) = false := by
    cases pre <;> simp
  have hmain : pollForNewMessages onMsg crashCb s docs =
      (stopConsumer { s with lastId := some mbad.id },
        pre.map (fun m => Event.message m false) ++ crashEvents T crashCb e) := by
    rw [pollForNewMessages, hbatch, pollProcess, hne]
    simp only [Bool.false_eq_true, if_false]
    exact processBatch_crash onMsg crashCb pre post mbad e s hpre hthrow
  refine ⟨hmain, ?_, ?_, ?_, ?_, ?_⟩
  · rw [hmain]; rfl
  · rw [hmain]; rfl
  · rw [hmain]; rfl
  · rw [hmain]
    simp only [List.filter_append, filter_crashed_of_messages,
      filter_crashed_crashEvents, List.nil_append]
  · rw [hmain]
    simp only [List.filter_append, filter_message_of_messages,
      filter_message_crashEvents, List.append_nil]

/-- Witness for C3, the spec's own boundary example: five fetched records,
callback throws on the third — ids 1 and 2 delivered, `lastId = 3`,
`onCrashed` fired exactly once, consumer stopped, no further deliveries. -/
theorem c3_witness :
    pollForNewMessages onMsgThrow3 crashCbNone (streamingConsumer none false)
        [msgN 1, msgN 2, msgN 3, msgN 4, msgN 5] =
      (stopConsumer { streamingConsumer none false with lastId := some (msgN 3).id },
        [msgN 1, msgN 2].map (fun m => Event.message m false)
          ++ crashEvents Nat crashCbNone "boom")
    ∧ (pollForNewMessages onMsgThrow3 crashCbNone (streamingConsumer none false)
        [msgN 1, msgN 2, msgN 3, msgN 4, msgN 5]).1.lastId = some (msgN 3).id
    ∧ (pollForNewMessages onMsgThrow3 crashCbNone (streamingConsumer none false)
        [msgN 1, msgN 2, msgN 3, msgN 4, msgN 5]).1.isStopped = true
    ∧ (pollForNewMessages onMsgThrow3 crashCbNone (streamingConsumer none false)
        [msgN 1, msgN 2, msgN 3, msgN 4, msgN 5]).1.pollingLoopActive = false
    ∧ ((pollForNewMessages onMsgThrow3 crashCbNone (streamingConsumer none false)
        [msgN 1, msgN 2, msgN 3, msgN 4, msgN 5]).2.filter isCrashedEvent)
        = [Event.crashed "boom"]
    ∧ ((pollForNewMessages onMsgThrow3 crashCbNone (streamingConsumer none false)
        [msgN 1, msgN 2, msgN 3, msgN 4, msgN 5]).2.filter isMessageEvent)
        = [msgN 1, msgN 2].map (fun m => Event.message m false) :=
  c3_callback_throw_crashes_consumer onMsgThrow3 crashCbNone
    (streamingConsumer none false) [msgN 1, msgN 2, msgN 3, msgN 4, msgN 5]
    [msgN 1, msgN 2] [msgN 4, msgN 5] (msgN 3) "boom"
    (by decide) (by decide) (by decide)

/-- Claim C4 names the awaiting of the message callback; the source invokes
`this.messageCallback(topicMsg)` without `await` (consumer.ts line 252), so a
rejection of the returned promise is invisible to the `try`/`catch` that is
supposed to divert to the crash path.  At the failing input — a batch of two
records whose first callback returns a rejecting promise — the code delivers
the second record anyway, never invokes `crashCallback` and keeps running. -/
theorem c4_async_rejection_escapes_crash_path :
    (pollForNewMessages onMsgReject1 crashCbNone (streamingConsumer none false)
        [msgN 1, msgN 2]).2
      = [Event.message (msgN 1) true, Event.message (msgN 2) false]
    ∧ (pollForNewMessages onMsgReject1 crashCbNone (streamingConsumer none false)
        [msgN 1, msgN 2]).1.isStopped = false
    ∧ (pollForNewMessages onMsgReject1 crashCbNone (streamingConsumer none false)
        [msgN 1, msgN 2]).1.isMoreMessages = true
    ∧ ((pollForNewMessages onMsgReject1 crashCbNone (streamingConsumer none false)
        [msgN 1, msgN 2]).2.filter isCrashedEvent) = [] := by
  decide

/-! ## Lemmas about the streaming loop -/

theorem lastIdAfter_of_ne_nil (batch : List (Msg T)) (li : Option Nat)
    (h : batch ≠ []) : lastIdAfter batch li = some (batch.getLast h).id := by
  unfold lastIdAfter
  rw [List.getLast?_eq_getLast batch h]

theorem tick_resume_empty (crashCb : String → Option String) (li : Option Nat)
    (latch : Bool) (docs : List (Msg T)) (rest : List (Act T))
    (hfetch : fetchNextMessagesFromMongo 100 li docs = []) :
    runTrace onMsgOk crashCb ⟨streamingConsumer li latch, docs, none⟩
        (.tick :: .resume :: rest)
      = runTrace onMsgOk crashCb ⟨idleConsumer li latch, docs, none⟩ rest := by
  simp [runTrace, step, streamingConsumer, idleConsumer, hfetch, pollProcess]

theorem tick_resume_nonempty (crashCb : String → Option String) (li : Option Nat)
    (latch : Bool) (docs batch : List (Msg T)) (rest : List (Act T))
    (hfetch : fetchNextMessagesFromMongo 100 li docs = batch) (hne : batch ≠ []) :
    runTrace onMsgOk crashCb ⟨streamingConsumer li latch, docs, none⟩
        (.tick :: .resume :: rest)
      = ((runTrace onMsgOk crashCb
            ⟨streamingConsumer (lastIdAfter batch li) latch, docs, none⟩ rest).1,
         batch.map (fun m => Event.message m false)
           ++ (runTrace onMsgOk crashCb
                ⟨streamingConsumer (lastIdAfter batch li) latch, docs, none⟩ rest).2) := by
  have hemp : batch.isEmpty = false := by
    cases batch with
    | nil => exact absurd rfl hne
    | cons a l => rfl
  simp only [runTrace, step, streamingConsumer, hfetch]
  simp only [Bool.not_true, Bool.false_eq_true, if_false, if_true, show
    (⟨true, true, false, true, false, latch, li, true⟩ : ConsumerState).isStopped = false
    from rfl]
  simp [pollProcess, hemp, processBatch_ok, streamingConsumer]

theorem drain_idle (crashCb : String → Option String) (n : Nat) :
    ∀ (M : Machine T), M.cs.isMoreMessages = false → M.cs.isStopped = false →
      M.inflight = none →
      ((runTrace onMsgOk crashCb M (drainTrace T n)).2.filter isMessageEvent) = [] := by
  induction n with
  | zero => intro M _ _ _; simp [drainTrace, runTrace]
  | succ n ih =>
    intro M hmm hstop hin
    by_cases hl : M.cs.hasCalledNoMoreMessages = true
    · simp only [drainTrace, runTrace, step, hstop, hmm, hl, hin, Bool.not_false,
        Bool.false_eq_true, if_false, if_true, Bool.not_true]
      simpa using ih M hmm hstop hin
    · have hl2 : M.cs.hasCalledNoMoreMessages = false := by
        cases h : M.cs.hasCalledNoMoreMessages
        · rfl
        · exact absurd h hl
      simp only [drainTrace, runTrace, step, hstop, hmm, hl2, hin, Bool.not_false,
        Bool.false_eq_true, if_false, if_true, Bool.not_true]
      have := ih { M with cs := { M.cs with hasCalledNoMoreMessages := true } }
        hmm hstop hin
      simpa [isDrainedEvent, isMessageEvent, hmm, hstop, hin] using this

theorem drop_length_take (n : Nat) (l : List α) :
    l.drop ((l.take n).length) = l.drop n := by
  rcases Nat.le_total n l.length with h | h
  · simp [List.length_take, Nat.min_eq_left h]
  · simp [List.length_take, Nat.min_eq_right h, List.drop_eq_nil_of_le h,
      List.drop_eq_nil_of_le (Nat.le_refl l.length)]

/-- Running the polling interval long enough delivers exactly the records past
the cursor, in storage order.  `k` positions the cursor: every record the
`_id > lastId` clause still matches is exactly the suffix `docs.drop k`. -/
theorem drain_run_messages (crashCb : String → Option String) (docs : List (Msg T))
    (hsorted : docs.Pairwise (fun a b => a.id < b.id)) :
    ∀ (n k : Nat) (li : Option Nat) (latch : Bool),
      docs.filter (cursorMatch li) = docs.drop k →
      docs.length - k < n →
      ((runTrace onMsgOk crashCb ⟨streamingConsumer li latch, docs, none⟩
          (drainTrace T n)).2.filter isMessageEvent)
        = (docs.drop k).map (fun m => Event.message m false) := by
  intro n
  induction n with
  | zero => intro k li latch hcur hn; omega
  | succ n ih =>
    intro k li latch hcur hn
    have hfetch : fetchNextMessagesFromMongo 100 li docs = (docs.drop k).take 100 :=
      fetch_of_sorted_drop 100 li docs hsorted k hcur
    by_cases hk : docs.length ≤ k
    · have hdropnil : docs.drop k = [] := List.drop_eq_nil_of_le hk
      have hfetchnil : fetchNextMessagesFromMongo 100 li docs = [] := by
        rw [hfetch, hdropnil, List.take_nil]
      rw [drainTrace, tick_resume_empty crashCb li latch docs _ hfetchnil,
        hdropnil, List.map_nil]
      exact drain_idle crashCb n ⟨idleConsumer li latch, docs, none⟩ rfl rfl rfl
    · have hklt : k < docs.length := Nat.lt_of_not_le hk
      have hXne : docs.drop k ≠ [] := by
        intro hnil
        have := List.drop_eq_nil_iff.mp hnil
        omega
      have hbne : (docs.drop k).take 100 ≠ [] := by
        intro hnil
        rcases List.take_eq_nil_iff.mp hnil with h | h
        · exact absurd h (by omega)
        · exact hXne h
      set batch := (docs.drop k).take 100 with hbatch
      have hblen : 1 ≤ batch.length := by
        cases hb : batch with
        | nil => exact absurd hb hbne
        | cons a l => simp [hb]
      have hblen2 : batch.length ≤ docs.length - k := by
        have h := List.length_take 100 (docs.drop k)
        rw [← hbatch] at h
        have hdl := List.length_drop k docs
        omega
      -- the id the cursor ends at after this batch
      have hjlt : k + batch.length - 1 < docs.length := by omega
      have hi1 : batch.length - 1 < (docs.drop k).length := by
        rw [List.length_drop]; omega
      have hlastid : (batch.getLast hbne).id = (docs[k + batch.length - 1]).id := by
        have h1 : batch.getLast hbne = batch[batch.length - 1] :=
          List.getLast_eq_getElem batch hbne
        have h2 : batch[batch.length - 1]
            = (docs.drop k)[batch.length - 1] := List.getElem_take (docs.drop k)
        have h3 : (docs.drop k)[batch.length - 1]
            = docs[k + (batch.length - 1)] := List.getElem_drop docs
        have hidx : k + (batch.length - 1) = k + batch.length - 1 := by omega
        rw [h1, h2, h3]
        simp only [hidx]
      have hcur2 : docs.filter (cursorMatch (lastIdAfter batch li))
          = docs.drop (k + batch.length) := by
        rw [lastIdAfter_of_ne_nil batch li hbne]
        have hfun : cursorMatch (T := T) (some (batch.getLast hbne).id)
            = fun m => decide ((docs[k + batch.length - 1]).id < m.id) := by
          funext m
          simp [cursorMatch, hlastid]
        rw [hfun]
        have := filter_gt_getElem docs hsorted (k + batch.length - 1) hjlt
        rw [this]
        have hidx2 : k + batch.length - 1 + 1 = k + batch.length := by omega
        rw [hidx2]
      have hsplit : batch ++ docs.drop (k + batch.length) = docs.drop k := by
        have h1 : docs.drop (k + batch.length) = (docs.drop k).drop 100 := by
          have hb100 : (docs.drop k).drop batch.length = (docs.drop k).drop 100 := by
            have hbl : batch.length = ((docs.drop k).take 100).length := by rw [hbatch]
            rw [hbl, drop_length_take]
          rw [← hb100, List.drop_drop]
        rw [h1, hbatch, List.take_append_drop]
      rw [drainTrace, tick_resume_nonempty crashCb li latch docs batch _ hfetch hbne]
      have hih := ih (k + batch.length) (lastIdAfter batch li) latch hcur2 (by omega)
      simp only [List.filter_append, filter_message_of_messages, hih]
      rw [← List.map_append, hsplit]

/-! ## Lemmas about the producer -/

theorem pushSerial_eq (now : Nat) (key : String) :
    ∀ (ps : List T) (s : ProducerState T), s.isStopped = false →
      pushSerial now key s ps =
        ⟨s.seq + ps.length, s.docs ++ mkRecords now key s.seq ps,
          s.isStarting, false⟩ := by
  intro ps
  induction ps with
  | nil =>
    intro s h
    cases s with
    | mk seq docs st sp =>
      simp only at h
      subst h
      simp [pushSerial, mkRecords]
  | cons p ps ih =>
    intro s h
    cases s with
    | mk seq docs st sp =>
      simp only at h
      subst h
      have hpush : pushMessageToTopic (⟨seq, docs, st, false⟩ : ProducerState T)
          now p (some key) none true =
          ⟨none, ⟨seq + 1, docs ++ [⟨seq + 1, now, some key, none, p⟩], st, false⟩, true⟩ := by
        simp [pushMessageToTopic, getNextId, truthy]
      rw [pushSerial, hpush]
      rw [ih _ rfl]
      simp [mkRecords, List.append_assoc]
      omega

theorem mkRecords_payloads (now : Nat) (key : String) :
    ∀ (ps : List T) (seq : Nat), (mkRecords now key seq ps).map (·.payload) = ps := by
  intro ps
  induction ps with
  | nil => intro seq; rfl
  | cons p ps ih => intro seq; simp [mkRecords, ih]

theorem mkRecords_ids_gt (now : Nat) (key : String) :
    ∀ (ps : List T) (seq : Nat), ∀ m ∈ mkRecords now key seq ps, seq < m.id := by
  intro ps
  induction ps with
  | nil => intro seq m hm; simp [mkRecords] at hm
  | cons p ps ih =>
    intro seq m hm
    rcases List.mem_cons.mp hm with rfl | hm
    · simp
    · exact Nat.lt_of_succ_lt (ih (seq + 1) m hm)

theorem mkRecords_sorted (now : Nat) (key : String) :
    ∀ (ps : List T) (seq : Nat),
      (mkRecords now key seq ps).Pairwise (fun a b => a.id < b.id) := by
  intro ps
  induction ps with
  | nil => intro seq; simp [mkRecords]
  | cons p ps ih =>
    intro seq
    refine List.pairwise_cons.mpr ⟨?_, ih (seq + 1)⟩
    intro m hm
    exact mkRecords_ids_gt now key ps (seq + 1) m hm

theorem messagePayloads_filter (evs : List (Event T)) :
    messagePayloads (evs.filter isMessageEvent) = messagePayloads evs := by
  induction evs with
  | nil => rfl
  | cons e evs ih =>
    cases e <;> simpa [messagePayloads, isMessageEvent] using ih

theorem messageIds_filter (evs : List (Event T)) :
    messageIds (evs.filter isMessageEvent) = messageIds evs := by
  induction evs with
  | nil => rfl
  | cons e evs ih =>
    cases e <;> simpa [messageIds, isMessageEvent] using ih

theorem messagePayloads_of_messages (l : List (Msg T)) :
    messagePayloads (l.map (fun m => Event.message m false)) = l.map (·.payload) := by
  induction l with
  | nil => rfl
  | cons m l ih => simpa [messagePayloads] using ih

theorem messageIds_of_messages (l : List (Msg T)) :
    messageIds (l.map (fun m => Event.message m false)) = l.map (·.id) := by
  induction l with
  | nil => rfl
  | cons m l ih => simpa [messageIds] using ih

/-- Claim C1: `K` serial pushes with distinct payloads round-trip through a
consumer streaming from `null` — the delivered payloads equal the pushed ones
in push order with strictly increasing ids — and every fetch returns at most
`limit` records, all past the cursor, in ascending id order, and returns all
of them whenever at most `limit` match. -/
theorem c1_serial_pushes_roundtrip {T : Type} (ps : List T) (hdist : ps.Nodup)
    (now s0seq : Nat) (key : String) (crashCb : String → Option String) :
    (∀ (limit : Nat) (li : Option Nat) (docs : List (Msg T)),
        (fetchNextMessagesFromMongo limit li docs).length ≤ limit
      ∧ (∀ m ∈ fetchNextMessagesFromMongo limit li docs,
            m ∈ docs ∧ cursorMatch li m = true)
      ∧ (fetchNextMessagesFromMongo limit li docs).Pairwise (fun a b => a.id ≤ b.id)
      ∧ ((docs.filter (cursorMatch li)).length ≤ limit →
          (fetchNextMessagesFromMongo limit li docs).Perm (docs.filter (cursorMatch li))))
    ∧ ((streamAllRun crashCb (serialTopicDocs now key s0seq ps)).2.filter isMessageEvent
        = (serialTopicDocs now key s0seq ps).map (fun m => Event.message m false))
    ∧ messagePayloads (streamAllRun crashCb (serialTopicDocs now key s0seq ps)).2 = ps
    ∧ (messageIds (streamAllRun crashCb (serialTopicDocs now key s0seq ps)).2).Pairwise
        (· < ·) := by
  have hdocs : serialTopicDocs now key s0seq ps = mkRecords now key s0seq ps := by
    rw [serialTopicDocs, pushSerial_eq now key ps ⟨s0seq, [], true, false⟩ rfl]
    simp
  have hsorted : (serialTopicDocs now key s0seq ps).Pairwise (fun a b => a.id < b.id) := by
    rw [hdocs]; exact mkRecords_sorted now key ps s0seq
  have hcur : (serialTopicDocs now key s0seq ps).filter (cursorMatch none)
      = (serialTopicDocs now key s0seq ps).drop 0 := by
    simp [cursorMatch]
  have hmain : ((streamAllRun crashCb (serialTopicDocs now key s0seq ps)).2.filter
      isMessageEvent)
      = (serialTopicDocs now key s0seq ps).map (fun m => Event.message m false) := by
    have := drain_run_messages crashCb (serialTopicDocs now key s0seq ps) hsorted
      ((serialTopicDocs now key s0seq ps).length + 1) 0 none false hcur (by omega)
    simpa [streamAllRun] using this
  refine ⟨?_, hmain, ?_, ?_⟩
  · intro limit li docs
    exact ⟨fetch_length_le limit li docs, fun m hm => fetch_mem limit li docs m hm,
      fetch_sorted limit li docs, fetch_complete limit li docs⟩
  · rw [← messagePayloads_filter, hmain, messagePayloads_of_messages, hdocs,
      mkRecords_payloads]
  · rw [← messageIds_filter, hmain, messageIds_of_messages]
    exact (List.pairwise_map.mpr hsorted)

/-- Witness for C1: three distinct payloads pushed on a fresh topic. -/
theorem c1_witness :
    (∀ (limit : Nat) (li : Option Nat) (docs : List (Msg Nat)),
        (fetchNextMessagesFromMongo limit li docs).length ≤ limit
      ∧ (∀ m ∈ fetchNextMessagesFromMongo limit li docs,
            m ∈ docs ∧ cursorMatch li m = true)
      ∧ (fetchNextMessagesFromMongo limit li docs).Pairwise (fun a b => a.id ≤ b.id)
      ∧ ((docs.filter (cursorMatch li)).length ≤ limit →
          (fetchNextMessagesFromMongo limit li docs).Perm (docs.filter (cursorMatch li))))
    ∧ ((streamAllRun crashCbNone (serialTopicDocs 0 "k" 0 [10, 20, 30])).2.filter
          isMessageEvent
        = (serialTopicDocs 0 "k" 0 [10, 20, 30]).map (fun m => Event.message m false))
    ∧ messagePayloads (streamAllRun crashCbNone (serialTopicDocs 0 "k" 0 [10, 20, 30])).2
        = [10, 20, 30]
    ∧ (messageIds (streamAllRun crashCbNone (serialTopicDocs 0 "k" 0 [10, 20, 30])).2).Pairwise
        (· < ·) :=
  c1_serial_pushes_roundtrip [10, 20, 30] (by decide) 0 0 "k" crashCbNone

/-! ## Lemmas about push and broadcast (claim C2) -/

theorem applyPushes_fresh :
    ∀ (rest : List (PushArgs T)) (s : ProducerState T),
      s.seq ≤ (applyPushes s rest).seq
      ∧ (∀ m ∈ (applyPushes s rest).docs, m ∈ s.docs ∨ s.seq < m.id) := by
  intro rest
  induction rest with
  | nil => intro s; exact ⟨Nat.le_refl _, fun m hm => Or.inl hm⟩
  | cons a rest ih =>
    intro s
    by_cases hstop : s.isStopped = true
    · have hs1 : (pushMessageToTopic s a.now a.payload a.shardingKey a.logCompactId a.ack).state
          = s := by
        simp [pushMessageToTopic, hstop]
      constructor
      · simpa [applyPushes, hs1] using (ih s).1
      · intro m hm
        rw [applyPushes, hs1] at hm
        exact (ih s).2 m hm
    · have hstop2 : s.isStopped = false := by
        cases h : s.isStopped
        · rfl
        · exact absurd h hstop
      by_cases hack : a.ack = true
      · set d : Msg T := ⟨s.seq + 1, a.now, a.shardingKey, truthy a.logCompactId, a.payload⟩
          with hd
        have hs1 : (pushMessageToTopic s a.now a.payload a.shardingKey a.logCompactId a.ack).state
            = { s with seq := s.seq + 1, docs := s.docs ++ [d] } := by
          simp [pushMessageToTopic, getNextId, hstop2, hack, hd]
        rw [applyPushes, hs1]
        set s1 : ProducerState T := { s with seq := s.seq + 1, docs := s.docs ++ [d] }
          with hs1def
        constructor
        · exact Nat.le_trans (Nat.le_succ _) (ih s1).1
        · intro m hm
          rcases (ih s1).2 m hm with hmem | hgt
          · rcases List.mem_append.mp hmem with h | h
            · exact Or.inl h
            · right
              have hmd : m = d := by simpa using h
              rw [hmd, hd]
              exact Nat.lt_succ_self _
          · exact Or.inr (Nat.lt_of_le_of_lt (Nat.le_succ _) hgt)
      · have hack2 : a.ack = false := by
          cases h : a.ack
          · rfl
          · exact absurd h hack
        have hs1 : (pushMessageToTopic s a.now a.payload a.shardingKey a.logCompactId a.ack).state
            = { s with seq := s.seq + 1 } := by
          simp [pushMessageToTopic, getNextId, hstop2, hack2]
        rw [applyPushes, hs1]
        set s1 : ProducerState T := { s with seq := s.seq + 1 } with hs1def
        constructor
        · exact Nat.le_trans (Nat.le_succ _) (ih s1).1
        · intro m hm
          rcases (ih s1).2 m hm with hmem | hgt
          · exact Or.inl hmem
          · exact Or.inr (Nat.lt_of_le_of_lt (Nat.le_succ _) hgt)

theorem broadcastAttemptMade_succ_true (st : Bool) (alive pubOk : Nat → Bool) (k : Nat)
    (h : broadcastAttemptMade st alive pubOk (k + 1) = true) :
    broadcastAttemptMade st alive pubOk k = true := by
  have := h
  rw [broadcastAttemptMade] at this
  exact (Bool.and_eq_true_iff.mp ((Bool.and_eq_true_iff.mp this).1)).1

theorem broadcastAttemptMade_mono (st : Bool) (alive pubOk : Nat → Bool) :
    ∀ (k j : Nat), j ≤ k → broadcastAttemptMade st alive pubOk k = true →
      broadcastAttemptMade st alive pubOk j = true := by
  intro k
  induction k with
  | zero => intro j hj h; rw [Nat.le_zero.mp hj]; exact h
  | succ k ih =>
    intro j hj h
    rcases Nat.lt_or_ge j (k + 1) with hlt | hge
    · exact ih j (Nat.lt_succ_iff.mp hlt) (broadcastAttemptMade_succ_true st alive pubOk k h)
    · have : j = k + 1 := Nat.le_antisymm hj hge
      rw [this]; exact h

theorem broadcastPublishesAt_unique (st : Bool) (alive pubOk : Nat → Bool) (j k : Nat)
    (hj : broadcastPublishesAt st alive pubOk j = true)
    (hk : broadcastPublishesAt st alive pubOk k = true) : j = k := by
  rcases Nat.lt_trichotomy j k with hlt | heq | hgt
  · exfalso
    rcases Bool.and_eq_true_iff.mp hj with ⟨hja, hjp⟩
    rcases Bool.and_eq_true_iff.mp hja with ⟨hjm, hjal⟩
    rcases Bool.and_eq_true_iff.mp hk with ⟨hka, _⟩
    rcases Bool.and_eq_true_iff.mp hka with ⟨hkm, _⟩
    have hsucc : broadcastAttemptMade st alive pubOk (j + 1) = true :=
      broadcastAttemptMade_mono st alive pubOk k (j + 1) hlt hkm
    rw [broadcastAttemptMade, hjm, hjal, hjp] at hsucc
    simp at hsucc
  · exact heq
  · exfalso
    rcases Bool.and_eq_true_iff.mp hk with ⟨hka, hkp⟩
    rcases Bool.and_eq_true_iff.mp hka with ⟨hkm, hkal⟩
    rcases Bool.and_eq_true_iff.mp hj with ⟨hja, _⟩
    rcases Bool.and_eq_true_iff.mp hja with ⟨hjm, _⟩
    have hsucc : broadcastAttemptMade st alive pubOk (k + 1) = true :=
      broadcastAttemptMade_mono st alive pubOk j (k + 1) hgt hjm
    rw [broadcastAttemptMade, hkm, hkal, hkp] at hsucc
    simp at hsucc

/-- Claim C2: a push on a live producer allocates the next id and only then
inserts the record carrying it; a non-acknowledged insert fails the push with
the counter already advanced (the id is burned: no record of any later push
sequence ever carries it) and no broadcast is initiated for that call; after
an acknowledged insert the push succeeds — its result does not depend on any
publish outcome, since the broadcast is not awaited — the broadcast is
initiated, a failed publish attempt is retried 10 seconds later for as long
as the producer is alive, a dead producer stops the retrying, and the token
is published at most once. -/
theorem c2_push_allocates_inserts_broadcasts {T : Type} (s : ProducerState T)
    (now : Nat) (p : T) (key lc : Option String) (ack : Bool)
    (hstarted : s.isStarting = true) (hrun : s.isStopped = false)
    (hinv : ∀ m ∈ s.docs, m.id ≤ s.seq) :
    (pushMessageToTopic s now p key lc ack).state.seq = s.seq + 1
    ∧ (ack = true →
        (pushMessageToTopic s now p key lc ack).result = none
        ∧ (pushMessageToTopic s now p key lc ack).state.docs
            = s.docs ++ [⟨s.seq + 1, now, key, truthy lc, p⟩]
        ∧ (pushMessageToTopic s now p key lc ack).broadcastStarted = true)
    ∧ (ack = false →
        (pushMessageToTopic s now p key lc ack).result = some .notAcked
        ∧ (pushMessageToTopic s now p key lc ack).state.docs = s.docs
        ∧ (pushMessageToTopic s now p key lc ack).broadcastStarted = false
        ∧ (∀ (alive pubOk : Nat → Bool) (k : Nat),
            broadcastAttemptMade false alive pubOk k = false)
        ∧ (∀ (rest : List (PushArgs T)),
            ∀ m ∈ (applyPushes (pushMessageToTopic s now p key lc ack).state rest).docs,
              m.id ≠ s.seq + 1))
    ∧ (∀ (alive pubOk : Nat → Bool) (k : Nat),
        broadcastAttemptMade true alive pubOk k = true → alive k = true →
          pubOk k = false → broadcastAttemptMade true alive pubOk (k + 1) = true)
    ∧ (∀ (alive pubOk : Nat → Bool) (k : Nat), alive k = false →
        broadcastAttemptMade true alive pubOk (k + 1) = false)
    ∧ (∀ (t k : Nat), broadcastAttemptTime t (k + 1) = broadcastAttemptTime t k + 10)
    ∧ (∀ (alive pubOk : Nat → Bool) (j k : Nat),
        broadcastPublishesAt true alive pubOk j = true →
          broadcastPublishesAt true alive pubOk k = true → j = k) := by
  refine ⟨?_, ?_, ?_, ?_, ?_, ?_, ?_⟩
  · cases ack <;> simp [pushMessageToTopic, getNextId, hrun]
  · intro hack
    subst hack
    refine ⟨?_, ?_, ?_⟩ <;> simp [pushMessageToTopic, getNextId, hrun]
  · intro hack
    subst hack
    refine ⟨?_, ?_, ?_, ?_, ?_⟩
    · simp [pushMessageToTopic, getNextId, hrun]
    · simp [pushMessageToTopic, getNextId, hrun]
    · simp [pushMessageToTopic, getNextId, hrun]
    · intro alive pubOk k
      induction k with
      | zero => rfl
      | succ k ih => rw [broadcastAttemptMade, ih]; rfl
    · intro rest m hm
      have hs1 : (pushMessageToTopic s now p key lc false).state = { s with seq := s.seq + 1 } := by
        simp [pushMessageToTopic, getNextId, hrun]
      rw [hs1] at hm
      rcases (applyPushes_fresh rest { s with seq := s.seq + 1 }).2 m hm with hmem | hgt
      · have := hinv m hmem
        omega
      · simp only at hgt
        omega
  · intro alive pubOk k hmade hal hp
    rw [broadcastAttemptMade, hmade, hal, hp]
    rfl
  · intro alive pubOk k hal
    rw [broadcastAttemptMade, hal]
    simp
  · intro t k
    simp [broadcastAttemptTime]
    omega
  · intro alive pubOk j k hj hk
    exact broadcastPublishesAt_unique true alive pubOk j k hj hk

/-- Witness for C2 at a concrete producer state. -/
theorem c2_witness :
    ((pushMessageToTopic (⟨0, [], true, false⟩ : ProducerState Nat) 7 42 (some "k") none
        true).state.seq = 0 + 1)
    ∧ (true = true →
        (pushMessageToTopic (⟨0, [], true, false⟩ : ProducerState Nat) 7 42 (some "k") none
            true).result = none
        ∧ (pushMessageToTopic (⟨0, [], true, false⟩ : ProducerState Nat) 7 42 (some "k") none
            true).state.docs = [] ++ [⟨0 + 1, 7, some "k", truthy none, 42⟩]
        ∧ (pushMessageToTopic (⟨0, [], true, false⟩ : ProducerState Nat) 7 42 (some "k") none
            true).broadcastStarted = true)
    ∧ (true = false →
        (pushMessageToTopic (⟨0, [], true, false⟩ : ProducerState Nat) 7 42 (some "k") none
            true).result = some .notAcked
        ∧ (pushMessageToTopic (⟨0, [], true, false⟩ : ProducerState Nat) 7 42 (some "k") none
            true).state.docs = []
        ∧ (pushMessageToTopic (⟨0, [], true, false⟩ : ProducerState Nat) 7 42 (some "k") none
            true).broadcastStarted = false
        ∧ (∀ (alive pubOk : Nat → Bool) (k : Nat),
            broadcastAttemptMade false alive pubOk k = false)
        ∧ (∀ (rest : List (PushArgs Nat)),
            ∀ m ∈ (applyPushes (pushMessageToTopic (⟨0, [], true, false⟩ : ProducerState Nat)
                7 42 (some "k") none true).state rest).docs,
              m.id ≠ 0 + 1))
    ∧ (∀ (alive pubOk : Nat → Bool) (k : Nat),
        broadcastAttemptMade true alive pubOk k = true → alive k = true →
          pubOk k = false → broadcastAttemptMade true alive pubOk (k + 1) = true)
    ∧ (∀ (alive pubOk : Nat → Bool) (k : Nat), alive k = false →
        broadcastAttemptMade true alive pubOk (k + 1) = false)
    ∧ (∀ (t k : Nat), broadcastAttemptTime t (k + 1) = broadcastAttemptTime t k + 10)
    ∧ (∀ (alive pubOk : Nat → Bool) (j k : Nat),
        broadcastPublishesAt true alive pubOk j = true →
          broadcastPublishesAt true alive pubOk k = true → j = k) :=
  c2_push_allocates_inserts_broadcasts (⟨0, [], true, false⟩ : ProducerState Nat)
    7 42 (some "k") none true rfl rfl (by simp)

/-! ## Lemmas about the wake handlers and the drained latch (claim C7) -/

theorem drainedCount_append (a b : List (Event T)) :
    drainedCount (a ++ b) = drainedCount a + drainedCount b := by
  simp [drainedCount, List.filter_append]

theorem processBatch_latch (onMsg : Msg T → CbOutcome) (crashCb : String → Option String) :
    ∀ (batch : List (Msg T)) (s : ConsumerState),
      (processBatch onMsg crashCb batch s).1.hasCalledNoMoreMessages
        = s.hasCalledNoMoreMessages := by
  intro batch
  induction batch with
  | nil => intro s; rfl
  | cons m rest ih =>
    intro s
    rw [processBatch]
    cases onMsg m <;> simp [ih, stopConsumer]

theorem processBatch_no_drained (onMsg : Msg T → CbOutcome)
    (crashCb : String → Option String) :
    ∀ (batch : List (Msg T)) (s : ConsumerState),
      ∀ ev ∈ (processBatch onMsg crashCb batch s).2, isDrainedEvent ev = false := by
  intro batch
  induction batch with
  | nil => intro s ev hev; simp [processBatch] at hev
  | cons m rest ih =>
    intro s ev hev
    rw [processBatch] at hev
    cases honm : onMsg m with
    | ok =>
      rw [honm] at hev
      rcases List.mem_cons.mp hev with rfl | h
      · rfl
      · exact ih _ ev h
    | asyncReject e =>
      rw [honm] at hev
      rcases List.mem_cons.mp hev with rfl | h
      · rfl
      · exact ih _ ev h
    | syncThrow e =>
      rw [honm] at hev
      have hev2 : ev ∈ crashEvents T crashCb e := hev
      unfold crashEvents at hev2
      cases hcb : crashCb e with
      | none =>
        rw [hcb] at hev2
        rcases List.mem_singleton.mp hev2 with rfl
        rfl
      | some e2 =>
        rw [hcb] at hev2
        rcases List.mem_cons.mp hev2 with rfl | h
        · rfl
        · rcases List.mem_singleton.mp h with rfl
          rfl

theorem processBatch_drained (onMsg : Msg T → CbOutcome) (crashCb : String → Option String)
    (batch : List (Msg T)) (s : ConsumerState) :
    drainedCount (processBatch onMsg crashCb batch s).2 = 0 := by
  unfold drainedCount
  rw [List.length_eq_zero, List.filter_eq_nil_iff]
  intro ev hev
  simp [processBatch_no_drained onMsg crashCb batch s ev hev]

theorem pollProcess_latch (onMsg : Msg T → CbOutcome) (crashCb : String → Option String)
    (batch : List (Msg T)) (s : ConsumerState) :
    (pollProcess onMsg crashCb batch s).1.hasCalledNoMoreMessages
      = s.hasCalledNoMoreMessages := by
  rw [pollProcess]
  by_cases h : batch.isEmpty <;> simp [h, processBatch_latch]

theorem pollProcess_drained (onMsg : Msg T → CbOutcome) (crashCb : String → Option String)
    (batch : List (Msg T)) (s : ConsumerState) :
    drainedCount (pollProcess onMsg crashCb batch s).2 = 0 := by
  rw [pollProcess]
  by_cases h : batch.isEmpty
  · simp [h, drainedCount]
  · rw [if_neg h]
    exact processBatch_drained onMsg crashCb batch s

theorem step_latch_mono (onMsg : Msg T → CbOutcome) (crashCb : String → Option String)
    (M : Machine T) (a : Act T) (h : M.cs.hasCalledNoMoreMessages = true) :
    (step onMsg crashCb M a).1.cs.hasCalledNoMoreMessages = true
    ∧ drainedCount (step onMsg crashCb M a).2 = 0 := by
  cases a with
  | tick =>
    rw [step]
    split_ifs with h1 h2 h3 h4 <;>
      simp_all [drainedCount, isDrainedEvent]
  | resume =>
    rw [step]
    cases hin : M.inflight with
    | none => exact ⟨h, rfl⟩
    | some batch =>
      constructor
      · simpa [pollProcess_latch] using h
      · simpa using pollProcess_drained onMsg crashCb batch M.cs
  | wake => exact ⟨h, rfl⟩
  | busReady => exact ⟨h, rfl⟩
  | stopCall => exact ⟨h, rfl⟩
  | produce m => exact ⟨h, rfl⟩

theorem step_drained (onMsg : Msg T → CbOutcome) (crashCb : String → Option String)
    (M : Machine T) (a : Act T) :
    drainedCount (step onMsg crashCb M a).2 ≤ 1
    ∧ (drainedCount (step onMsg crashCb M a).2 = 1 →
        (step onMsg crashCb M a).1.cs.hasCalledNoMoreMessages = true) := by
  cases a with
  | tick =>
    rw [step]
    split_ifs with h1 h2 h3 h4 <;>
      simp_all [drainedCount, isDrainedEvent]
  | resume =>
    rw [step]
    cases hin : M.inflight with
    | none => simp [drainedCount]
    | some batch =>
      have := pollProcess_drained onMsg crashCb batch M.cs
      constructor
      · simp [this]
      · intro hc
        simp only at hc
        rw [this] at hc
        exact absurd hc (by omega)
  | wake => simp [step, drainedCount]
  | busReady => simp [step, drainedCount]
  | stopCall => simp [step, drainedCount]
  | produce m => simp [step, drainedCount]

theorem runTrace_drained_le_one (onMsg : Msg T → CbOutcome)
    (crashCb : String → Option String) :
    ∀ (tr : List (Act T)) (M : Machine T),
      (M.cs.hasCalledNoMoreMessages = true →
        drainedCount (runTrace onMsg crashCb M tr).2 = 0)
      ∧ drainedCount (runTrace onMsg crashCb M tr).2 ≤ 1 := by
  intro tr
  induction tr with
  | nil => intro M; simp [runTrace, drainedCount]
  | cons a tr ih =>
    intro M
    have hsplit : drainedCount (runTrace onMsg crashCb M (a :: tr)).2
        = drainedCount (step onMsg crashCb M a).2
          + drainedCount (runTrace onMsg crashCb (step onMsg crashCb M a).1 tr).2 := by
      rw [runTrace]
      exact drainedCount_append _ _
    constructor
    · intro hlatch
      have hstep := step_latch_mono onMsg crashCb M a hlatch
      rw [hsplit, hstep.2, ((ih (step onMsg crashCb M a).1).1 hstep.1)]
    · have hle := (step_drained onMsg crashCb M a).1
      cases h0 : drainedCount (step onMsg crashCb M a).2 with
      | zero =>
        rw [hsplit, h0]
        simpa using (ih (step onMsg crashCb M a).1).2
      | succ n =>
        have hn : n = 0 := by omega
        subst hn
        have hlatch := (step_drained onMsg crashCb M a).2 h0
        rw [hsplit, h0, (ih (step onMsg crashCb M a).1).1 hlatch]

/-- Claim C7 (amended): the redis wake handler and the `FIRST_READY` /
`RECONNECTED` lifecycle handlers set `isMoreMessages` and make no callback,
but they do NOT clear `hasCalledNoMoreMessages` — no code path resets that
latch, so `onDrained` fires at most once per streaming session, over every
trace. -/
theorem c7_wake_sets_flag_but_latch_never_clears (onMsg : Msg T → CbOutcome)
    (crashCb : String → Option String) (M : Machine T) :
    (step onMsg crashCb M .wake).1
        = { M with cs := { M.cs with isMoreMessages := true } }
    ∧ (step onMsg crashCb M .wake).2 = []
    ∧ (step onMsg crashCb M .busReady).1
        = { M with cs := { M.cs with isMoreMessages := true } }
    ∧ (step onMsg crashCb M .busReady).2 = []
    ∧ (step onMsg crashCb M .wake).1.cs.hasCalledNoMoreMessages
        = M.cs.hasCalledNoMoreMessages
    ∧ (step onMsg crashCb M .busReady).1.cs.hasCalledNoMoreMessages
        = M.cs.hasCalledNoMoreMessages
    ∧ (∀ (tr : List (Act T)) (M0 : Machine T),
        drainedCount (runTrace onMsg crashCb M0 tr).2 ≤ 1) :=
  ⟨rfl, rfl, rfl, rfl, rfl, rfl,
    fun tr M0 => (runTrace_drained_le_one onMsg crashCb tr M0).2⟩

/-- Counterexample to C7 as stated: a wake token received after the drained
callback leaves `hasCalledNoMoreMessages = true` (the claim says it is
cleared), and in a full session — drain, wake, new message, drain again — the
drained callback fires once, not twice. -/
theorem c7_counterexample :
    (step onMsgOk crashCbNone (⟨idleConsumer none true, [], none⟩ : Machine Nat)
        Act.wake).1.cs.isMoreMessages = true
    ∧ (step onMsgOk crashCbNone (⟨idleConsumer none true, [], none⟩ : Machine Nat)
        Act.wake).1.cs.hasCalledNoMoreMessages = true
    ∧ drainedCount
        (runTrace onMsgOk crashCbNone
          (⟨streamingConsumer none false, [], none⟩ : Machine Nat)
          [.tick, .resume, .tick, .wake, .produce (msgN 1), .tick, .resume,
            .tick, .resume, .tick]).2 = 1 := by
  decide

/-! ## Stop semantics over interleavings (claim C8) -/

/-- Claim C8 (amended): once `stop` has latched and no poll step is in
flight, no interleaving produces any further callback — no `onMessage`, no
`onDrained`, no `onCrashed`. -/
theorem c8_no_callbacks_after_stop_when_no_poll_inflight (onMsg : Msg T → CbOutcome)
    (crashCb : String → Option String) :
    ∀ (tr : List (Act T)) (M : Machine T),
      M.cs.isStopped = true → M.inflight = none →
      (runTrace onMsg crashCb M tr).2 = [] := by
  intro tr
  induction tr with
  | nil => intro M _ _; rfl
  | cons a tr ih =>
    intro M hstop hin
    cases a with
    | tick =>
      rw [runTrace, step]
      simp only [hstop, if_true]
      exact ih _ rfl hin
    | resume =>
      rw [runTrace, step, hin]
      exact ih _ hstop hin
    | wake =>
      rw [runTrace, step]
      exact ih _ hstop hin
    | busReady =>
      rw [runTrace, step]
      exact ih _ hstop hin
    | stopCall =>
      rw [runTrace, step]
      exact ih _ (by simp [stopConsumer, hstop]) hin
    | produce m =>
      rw [runTrace, step]
      exact ih _ hstop hin

/-- Witness for C8 (amended) at a stopped machine. -/
theorem c8_witness :
    (runTrace onMsgOk crashCbNone
      ⟨stopConsumer (streamingConsumer none false), [msgN 1], none⟩
      [.tick, .wake, .tick, .resume, .produce (msgN 2), .tick]).2 = [] :=
  c8_no_callbacks_after_stop_when_no_poll_inflight onMsgOk crashCbNone
    [.tick, .wake, .tick, .resume, .produce (msgN 2), .tick]
    ⟨stopConsumer (streamingConsumer none false), [msgN 1], none⟩ rfl rfl

/-- Counterexample to C8 as stated: a poll step whose fetch is in flight when
`stop` arrives still delivers its whole batch afterwards — `onMessage` runs
after `stop`. -/
theorem c8_counterexample :
    (runTrace onMsgOk crashCbNone ⟨streamingConsumer none false, [msgN 1], none⟩
        [.tick, .stopCall]).2 = []
    ∧ (runTrace onMsgOk crashCbNone ⟨streamingConsumer none false, [msgN 1], none⟩
        [.tick, .stopCall]).1.cs.isStopped = true
    ∧ (step onMsgOk crashCbNone
        (runTrace onMsgOk crashCbNone ⟨streamingConsumer none false, [msgN 1], none⟩
          [.tick, .stopCall]).1 .resume).2 = [Event.message (msgN 1) false] := by
  decide

/-! ## State guards (claim C9) -/

/-- Claim C9 (amended): the guards raise synchronously as implemented — the
producer checks the stopped latch on `start`, `stop` and `pushMessageToTopic`
and re-entrancy on `start`; the consumer rejects a second `start` and a
second `streamMessagesFrom` (a non-started consumer gets the distinct
"cannot stream on a non started consumer" error, not AlreadyStreaming); but
neither consumer entry point consults the stopped latch: after `stop`, a
never-started consumer's `start` and a started non-streaming consumer's
`streamMessagesFrom` proceed without raising. -/
theorem c9_state_guards {T : Type} (s : ProducerState T) (c : ConsumerState)
    (fromId : Option Nat) (now : Nat) (p : T) (key lc : Option String) (ack : Bool) :
    (s.isStopped = true →
        (producerStart s).1 = some .stopped
        ∧ (producerStop s).1 = some .stopped
        ∧ (pushMessageToTopic s now p key lc ack).result = some .alreadyStopped)
    ∧ (s.isStopped = false → s.isStarting = true →
        (producerStart s).1 = some .alreadyStarting)
    ∧ (c.isStarting = true → (consumerStart c).1 = some .alreadyStarting)
    ∧ (c.isStarting = false → (consumerStart c).1 = none
        ∧ (consumerStart c).2.isStarting = true)
    ∧ (c.isStarting = false → (consumerStream c fromId).1 = some .notStarted)
    ∧ (c.isStarting = true → c.isStreaming = true →
        (consumerStream c fromId).1 = some .alreadyStreaming)
    ∧ (c.isStarting = true → c.isStreaming = false →
        (consumerStream c fromId).1 = none
        ∧ (consumerStream c fromId).2.isStreaming = true) := by
  refine ⟨?_, ?_, ?_, ?_, ?_, ?_, ?_⟩
  · intro h
    exact ⟨by simp [producerStart, h], by simp [producerStop, h],
      by simp [pushMessageToTopic, h]⟩
  · intro h1 h2
    simp [producerStart, h1, h2]
  · intro h
    simp [consumerStart, h]
  · intro h
    exact ⟨by simp [consumerStart, h], by simp [consumerStart, h]⟩
  · intro h
    simp [consumerStream, h]
  · intro h1 h2
    simp [consumerStream, h1, h2]
  · intro h1 h2
    exact ⟨by simp [consumerStream, h1, h2], by simp [consumerStream, h1, h2]⟩

/-- Witness for C9 at concrete states: a stopped producer and a stopped,
never-started consumer. -/
theorem c9_witness :
    ((⟨0, [], true, true⟩ : ProducerState Nat).isStopped = true →
        (producerStart (⟨0, [], true, true⟩ : ProducerState Nat)).1 = some .stopped
        ∧ (producerStop (⟨0, [], true, true⟩ : ProducerState Nat)).1 = some .stopped
        ∧ (pushMessageToTopic (⟨0, [], true, true⟩ : ProducerState Nat) 7 42 (some "k")
            none true).result = some .alreadyStopped)
    ∧ ((⟨0, [], true, true⟩ : ProducerState Nat).isStopped = false →
        (⟨0, [], true, true⟩ : ProducerState Nat).isStarting = true →
        (producerStart (⟨0, [], true, true⟩ : ProducerState Nat)).1 = some .alreadyStarting)
    ∧ ({ initialConsumer with isStopped := true }.isStarting = true →
        (consumerStart { initialConsumer with isStopped := true }).1
          = some .alreadyStarting)
    ∧ ({ initialConsumer with isStopped := true }.isStarting = false →
        (consumerStart { initialConsumer with isStopped := true }).1 = none
        ∧ (consumerStart { initialConsumer with isStopped := true }).2.isStarting = true)
    ∧ ({ initialConsumer with isStopped := true }.isStarting = false →
        (consumerStream { initialConsumer with isStopped := true } none).1
          = some .notStarted)
    ∧ ({ initialConsumer with isStopped := true }.isStarting = true →
        { initialConsumer with isStopped := true }.isStreaming = true →
        (consumerStream { initialConsumer with isStopped := true } none).1
          = some .alreadyStreaming)
    ∧ ({ initialConsumer with isStopped := true }.isStarting = true →
        { initialConsumer with isStopped := true }.isStreaming = false →
        (consumerStream { initialConsumer with isStopped := true } none).1 = none
        ∧ (consumerStream { initialConsumer with isStopped := true } none).2.isStreaming
            = true) :=
  c9_state_guards (⟨0, [], true, true⟩ : ProducerState Nat)
    { initialConsumer with isStopped := true } none 7 42 (some "k") none true

/-- Counterexample to C9 as stated: after `stop`, the consumer's `start`
raises nothing at all — the stopped latch is not consulted — and a started,
stopped consumer's `streamMessagesFrom` also proceeds. -/
theorem c9_counterexample :
    (consumerStart { initialConsumer with isStopped := true }).1 = none
    ∧ (consumerStart { initialConsumer with isStopped := true }).2.isStarting = true
    ∧ (consumerStream { initialConsumer with isStarting := true, isStopped := true }
        none).1 = none := by
  decide

/-! ## Lemmas about the setter flush (claims C5, C6, C10) -/

theorem drainCompacted_char (pushOk : Nat → Bool) :
    ∀ (l : List (CompactedMsg T)) (i : Nat),
      ((drainCompacted pushOk i l).succeeded = true →
        (drainCompacted pushOk i l).rem = []
        ∧ (drainCompacted pushOk i l).pushedIds = l.map (·.logCompactId)
        ∧ (drainCompacted pushOk i l).calls = l.map (fun e => compactedCall e true))
      ∧ ((drainCompacted pushOk i l).succeeded = false →
        ∃ j, ∃ hj : j < l.length,
          (drainCompacted pushOk i l).rem = l.drop j
          ∧ (drainCompacted pushOk i l).pushedIds = (l.take j).map (·.logCompactId)
          ∧ (drainCompacted pushOk i l).calls
              = (l.take j).map (fun e => compactedCall e true)
                ++ [compactedCall (l.get ⟨j, hj⟩) false]) := by
  intro l
  induction l with
  | nil =>
    intro i
    constructor
    · intro _; exact ⟨rfl, rfl, rfl⟩
    · intro h; exact absurd h (by simp [drainCompacted])
  | cons e rest ih =>
    intro i
    by_cases hp : pushOk i = true
    · have hr : drainCompacted pushOk i (e :: rest)
          = ⟨(drainCompacted pushOk (i + 1) rest).rem,
              e.logCompactId :: (drainCompacted pushOk (i + 1) rest).pushedIds,
              compactedCall e true :: (drainCompacted pushOk (i + 1) rest).calls,
              (drainCompacted pushOk (i + 1) rest).succeeded,
              (drainCompacted pushOk (i + 1) rest).nextIdx⟩ := by
        rw [drainCompacted, if_pos hp]
      constructor
      · intro hsucc
        rw [hr] at hsucc ⊢
        simp only at hsucc ⊢
        rcases (ih (i + 1)).1 hsucc with ⟨h1, h2, h3⟩
        exact ⟨h1, by rw [h2, List.map_cons], by rw [h3, List.map_cons]⟩
      · intro hfail
        rw [hr] at hfail ⊢
        simp only at hfail ⊢
        rcases (ih (i + 1)).2 hfail with ⟨j, hj, h1, h2, h3⟩
        refine ⟨j + 1, by simpa using Nat.succ_lt_succ hj, ?_, ?_, ?_⟩
        · simpa using h1
        · simp only [List.take_succ_cons, List.map_cons]
          rw [h2]
        · simp only [List.take_succ_cons, List.map_cons, List.cons_append]
          rw [h3]
          rfl
    · have hp2 : pushOk i = false := by
        cases h : pushOk i
        · rfl
        · exact absurd h hp
      have hr : drainCompacted pushOk i (e :: rest)
          = ⟨e :: rest, [], [compactedCall e false], false, i + 1⟩ := by
        rw [drainCompacted, if_neg (by simp [hp2])]
      constructor
      · intro hsucc
        rw [hr] at hsucc
        exact absurd hsucc (by simp)
      · intro _
        rw [hr]
        exact ⟨0, by simp, rfl, rfl, rfl⟩

theorem drainAppend_memoryHash_irrelevant (pushOk : Nat → Bool) (s : SetterState T) :
    (produceWaitingMessages pushOk s).state.memoryHash = s.memoryHash := by
  rw [produceWaitingMessages]
  by_cases h : (drainAppend pushOk 0 s.messagesToPush).succeeded = true
  · simp only [h, if_true]
  · simp [h]

theorem sortedQueue_sorted (s : SetterState T) :
    (sortedQueue s).Pairwise (fun a b => a.queuedAt ≤ b.queuedAt) :=
  sortByKey_pairwise (·.queuedAt) (s.messagesToApply.map Prod.snd)

theorem sortedQueue_perm (s : SetterState T) :
    (sortedQueue s).Perm (s.messagesToApply.map Prod.snd) := by
  unfold sortedQueue
  exact sortByKey_perm _ _

theorem drainCompacted_calls_shape (pushOk : Nat → Bool) :
    ∀ (l : List (CompactedMsg T)) (i : Nat),
      ∀ c ∈ (drainCompacted pushOk i l).calls,
        c.logCompactIdArg = none
        ∧ ∃ e ∈ l, c.payload = e.payload ∧ c.shardingKeyArg = some e.logCompactId := by
  intro l
  induction l with
  | nil => intro i c hc; simp [drainCompacted] at hc
  | cons e rest ih =>
    intro i c hc
    by_cases hp : pushOk i = true
    · rw [drainCompacted, if_pos hp] at hc
      rcases List.mem_cons.mp hc with rfl | hc
      · exact ⟨rfl, e, by simp, rfl, rfl⟩
      · rcases ih (i + 1) c hc with ⟨h1, e2, he2, h2, h3⟩
        exact ⟨h1, e2, List.mem_cons_of_mem e he2, h2, h3⟩
    · rw [drainCompacted, if_neg (by simpa using hp)] at hc
      rcases List.mem_singleton.mp hc with rfl
      exact ⟨rfl, e, by simp, rfl, rfl⟩

/-- Keys are preserved exactly when `recordSet` overwrites, and extended by
the fresh key otherwise. -/
theorem recordSet_keys (m : List (String × β)) (k : String) (v : β) :
    (recordSet m k v).map Prod.fst
      = if m.any (fun kv => kv.1 = k) then m.map Prod.fst
        else m.map Prod.fst ++ [k] := by
  rw [recordSet]
  by_cases h : m.any (fun kv => kv.1 = k) = true
  · rw [if_pos h, if_pos h, List.map_map]
    apply List.map_congr_left
    intro kv _
    by_cases hk : kv.1 = k
    · simp [hk]
    · simp [hk]
  · rw [if_neg h, if_neg h, List.map_append]
    rfl

theorem recordSet_keys_nodup (m : List (String × β)) (k : String) (v : β)
    (h : (m.map Prod.fst).Nodup) : ((recordSet m k v).map Prod.fst).Nodup := by
  rw [recordSet_keys]
  by_cases hmem : m.any (fun kv => kv.1 = k) = true
  · rw [if_pos hmem]; exact h
  · rw [if_neg hmem]
    have hk : k ∉ m.map Prod.fst := by
      intro hkmem
      rcases List.mem_map.mp hkmem with ⟨kv, hkv, hfst⟩
      have : m.any (fun kv => kv.1 = k) = true :=
        List.any_eq_true.mpr ⟨kv, hkv, by simp [hfst]⟩
      exact hmem this
    refine List.Nodup.append h (List.nodup_singleton k) ?_
    intro a ha hb
    rcases List.mem_singleton.mp hb with rfl
    exact hk ha

theorem recordSet_align (m : List (String × CompactedMsg T)) (k : String)
    (v : CompactedMsg T) (hv : v.logCompactId = k)
    (h : ∀ kv ∈ m, kv.2.logCompactId = kv.1) :
    ∀ kv ∈ recordSet m k v, kv.2.logCompactId = kv.1 := by
  intro kv hkv
  rw [recordSet] at hkv
  by_cases hmem : m.any (fun x => x.1 = k) = true
  · rw [if_pos hmem] at hkv
    rcases List.mem_map.mp hkv with ⟨kv0, hkv0, heq⟩
    by_cases hk : kv0.1 = k
    · rw [if_pos hk] at heq
      rw [← heq]
      exact hv
    · rw [if_neg hk] at heq
      rw [← heq]
      exact h kv0 hkv0
  · rw [if_neg hmem] at hkv
    rcases List.mem_append.mp hkv with hkv | hkv
    · exact h kv hkv
    · rcases List.mem_singleton.mp hkv with rfl
      exact hv

theorem sortedQueue_ids_perm_keys (s : SetterState T)
    (halign : ∀ kv ∈ s.messagesToApply, kv.2.logCompactId = kv.1) :
    ((sortedQueue s).map (·.logCompactId)).Perm (s.messagesToApply.map Prod.fst) := by
  have h1 := (sortedQueue_perm s).map (·.logCompactId)
  have h2 : (s.messagesToApply.map Prod.snd).map (·.logCompactId)
      = s.messagesToApply.map Prod.fst := by
    rw [List.map_map]
    exact List.map_congr_left (fun kv hkv => halign kv hkv)
  rwa [h2] at h1

theorem produceWaitingMessages_append_ok (pushOk : Nat → Bool) (s : SetterState T)
    (h : (drainAppend pushOk 0 s.messagesToPush).succeeded = true) :
    produceWaitingMessages pushOk s =
      ⟨{ s with
          messagesToPush := [],
          messagesToApply := s.messagesToApply.filter
            (fun kv => !((compactedDrainOf pushOk s).pushedIds.contains kv.1)) },
        (drainAppend pushOk 0 s.messagesToPush).calls ++ (compactedDrainOf pushOk s).calls,
        (compactedDrainOf pushOk s).succeeded⟩ := by
  rw [produceWaitingMessages, if_pos h]
  rfl

/-- Claim C5 (amended): the flush drains the compacted queue in ascending
`queuedAt` order and deletes each entry on push success, leaving the failing
entry and its successors queued on failure; but `memoryHash` is never written
by the flush, and each outbound push binds the compaction id to the
producer's sharding-key parameter, leaving its `logCompactId` parameter
undefined. -/
theorem c5_flush_drains_queue_without_memoryhash_write (pushOk : Nat → Bool)
    (s : SetterState T)
    (happ : (drainAppend pushOk 0 s.messagesToPush).succeeded = true)
    (hkeys : (s.messagesToApply.map Prod.fst).Nodup)
    (halign : ∀ kv ∈ s.messagesToApply, kv.2.logCompactId = kv.1) :
    (produceWaitingMessages pushOk s).state.memoryHash = s.memoryHash
    ∧ (sortedQueue s).Pairwise (fun a b => a.queuedAt ≤ b.queuedAt)
    ∧ (∀ c ∈ (compactedDrainOf pushOk s).calls,
        c.logCompactIdArg = none
        ∧ ∃ e ∈ sortedQueue s, c.payload = e.payload
            ∧ c.shardingKeyArg = some e.logCompactId)
    ∧ ((compactedDrainOf pushOk s).succeeded = true →
        (compactedDrainOf pushOk s).calls
            = (sortedQueue s).map (fun e => compactedCall e true)
        ∧ (produceWaitingMessages pushOk s).state.messagesToApply = [])
    ∧ ((compactedDrainOf pushOk s).succeeded = false →
        (produceWaitingMessages pushOk s).succeeded = false
        ∧ (∃ j, ∃ hj : j < (sortedQueue s).length,
            (compactedDrainOf pushOk s).calls
              = ((sortedQueue s).take j).map (fun e => compactedCall e true)
                ++ [compactedCall ((sortedQueue s).get ⟨j, hj⟩) false]
            ∧ (compactedDrainOf pushOk s).rem = (sortedQueue s).drop j)
        ∧ (∀ kv ∈ s.messagesToApply,
            kv.2 ∈ (compactedDrainOf pushOk s).rem →
            kv ∈ (produceWaitingMessages pushOk s).state.messagesToApply)) := by
  have hidsnodup : ((sortedQueue s).map (·.logCompactId)).Nodup :=
    (sortedQueue_ids_perm_keys s halign).nodup_iff.mpr hkeys
  refine ⟨drainAppend_memoryHash_irrelevant pushOk s, sortedQueue_sorted s, ?_, ?_, ?_⟩
  · intro c hc
    exact drainCompacted_calls_shape pushOk (sortedQueue s) _ c hc
  · intro hsucc
    rcases (drainCompacted_char pushOk (sortedQueue s) _).1 hsucc with ⟨hrem, hids, hcalls⟩
    refine ⟨hcalls, ?_⟩
    rw [produceWaitingMessages_append_ok pushOk s happ]
    simp only
    rw [List.filter_eq_nil_iff]
    intro kv hkv
    have hmem : kv.1 ∈ (compactedDrainOf pushOk s).pushedIds := by
      rw [compactedDrainOf, hids]
      have : kv.2.logCompactId ∈ (sortedQueue s).map (·.logCompactId) := by
        have hsnd : kv.2 ∈ sortedQueue s :=
          (sortedQueue_perm s).mem_iff.mpr (List.mem_map_of_mem Prod.snd hkv)
        exact List.mem_map_of_mem _ hsnd
      rwa [halign kv hkv] at this
    have hcont : (compactedDrainOf pushOk s).pushedIds.contains kv.1 = true :=
      List.elem_eq_true_of_mem hmem
    simpa using hmem
  · intro hfail
    rcases (drainCompacted_char pushOk (sortedQueue s) _).2 hfail with
      ⟨j, hj, hrem, hids, hcalls⟩
    refine ⟨?_, ⟨j, hj, hcalls, hrem⟩, ?_⟩
    · rw [produceWaitingMessages_append_ok pushOk s happ]
      simpa [compactedDrainOf] using hfail
    · intro kv hkv hkvrem
      rw [produceWaitingMessages_append_ok pushOk s happ]
      simp only
      rw [List.mem_filter]
      refine ⟨hkv, ?_⟩
      have hkvid : kv.2.logCompactId ∈ ((sortedQueue s).drop j).map (·.logCompactId) := by
        rw [compactedDrainOf, hrem] at hkvrem
        exact List.mem_map_of_mem _ hkvrem
      have hnotin : kv.1 ∉ (compactedDrainOf pushOk s).pushedIds := by
        rw [compactedDrainOf, hids]
        intro hin
        have hsplit : (sortedQueue s).map (·.logCompactId)
            = ((sortedQueue s).take j).map (·.logCompactId)
              ++ ((sortedQueue s).drop j).map (·.logCompactId) := by
          rw [← List.map_append, List.take_append_drop]
        rw [hsplit] at hidsnodup
        have hdisj := List.disjoint_of_nodup_append hidsnodup
        rw [← halign kv hkv] at hin
        exact hdisj hin hkvid
      simp only [Bool.not_eq_true']
      rw [Bool.eq_false_iff]
      intro hcontra
      rcases List.contains_iff_exists_mem_beq.mp hcontra with ⟨x, hx, hbeq⟩
      have : kv.1 = x := by simpa using hbeq
      rw [this] at hnotin
      exact hnotin hx

/-- Witness for C5 (amended): one pending entry, all pushes succeed. -/
theorem c5_witness :
    (produceWaitingMessages (fun _ => true) setterReady1).state.memoryHash
        = setterReady1.memoryHash
    ∧ (sortedQueue setterReady1).Pairwise (fun a b => a.queuedAt ≤ b.queuedAt)
    ∧ (∀ c ∈ (compactedDrainOf (fun _ => true) setterReady1).calls,
        c.logCompactIdArg = none
        ∧ ∃ e ∈ sortedQueue setterReady1, c.payload = e.payload
            ∧ c.shardingKeyArg = some e.logCompactId)
    ∧ ((compactedDrainOf (fun _ => true) setterReady1).succeeded = true →
        (compactedDrainOf (fun _ => true) setterReady1).calls
            = (sortedQueue setterReady1).map (fun e => compactedCall e true)
        ∧ (produceWaitingMessages (fun _ => true) setterReady1).state.messagesToApply = [])
    ∧ ((compactedDrainOf (fun _ => true) setterReady1).succeeded = false →
        (produceWaitingMessages (fun _ => true) setterReady1).succeeded = false
        ∧ (∃ j, ∃ hj : j < (sortedQueue setterReady1).length,
            (compactedDrainOf (fun _ => true) setterReady1).calls
              = ((sortedQueue setterReady1).take j).map (fun e => compactedCall e true)
                ++ [compactedCall ((sortedQueue setterReady1).get ⟨j, hj⟩) false]
            ∧ (compactedDrainOf (fun _ => true) setterReady1).rem
                = (sortedQueue setterReady1).drop j)
        ∧ (∀ kv ∈ setterReady1.messagesToApply,
            kv.2 ∈ (compactedDrainOf (fun _ => true) setterReady1).rem →
            kv ∈ (produceWaitingMessages (fun _ => true)
                setterReady1).state.messagesToApply)) :=
  c5_flush_drains_queue_without_memoryhash_write (fun _ => true) setterReady1
    (by decide) (by decide) (by decide)

/-- Counterexample to C5 as stated: after a successful flush of the entry
`("u1", payload 7)`, `memoryHash` holds nothing for "u1" (the claim says it
is updated to the payload's hash) and the single outbound push carried the
compaction id in the sharding-key slot with no `logCompactId` at all. -/
theorem c5_counterexample :
    (produceWaitingMessages (fun _ => true) setterReady1).state.memoryHash = []
    ∧ (produceWaitingMessages (fun _ => true) setterReady1).calls
        = [⟨7, some "u1", none, true⟩]
    ∧ (produceWaitingMessages (fun _ => true) setterReady1).state.messagesToApply = [] := by
  decide

/-- Claim C6 (amended): the dedup compares against `memoryHash`, which holds
only hashes observed through the wrapped consumer — a write whose hash equals
the remembered hash for its compaction id is dropped entirely; an accepted
write overwrites the pending entry for that id, keeping one pending entry per
id; and any single flush makes at most one outbound push per compaction id.
(When a flush separates the two equal-hash calls, and the flushed message has
not yet streamed back, the second call is enqueued again — see the
counterexample.) -/
theorem c6_dedup_is_against_observed_history {T : Type} (hashF : T → String)
    (now : Nat) (s : SetterState T) (cid : String) (p : T) (pushOk : Nat → Bool)
    (i : Nat) :
    (s.isReady = true → s.memoryHash.lookup cid = some (hashF p) →
      setLogCompactedPayload hashF now s cid p = .ok s)
    ∧ (∀ s', setLogCompactedPayload hashF now s cid p = .ok s' →
        ((s.messagesToApply.map Prod.fst).Nodup → (s'.messagesToApply.map Prod.fst).Nodup)
        ∧ ((∀ kv ∈ s.messagesToApply, kv.2.logCompactId = kv.1) →
            ∀ kv ∈ s'.messagesToApply, kv.2.logCompactId = kv.1))
    ∧ ((s.messagesToApply.map Prod.fst).Nodup →
        (∀ kv ∈ s.messagesToApply, kv.2.logCompactId = kv.1) →
        ((drainCompacted pushOk i (sortedQueue s)).calls.map (·.shardingKeyArg)).Nodup) := by
  refine ⟨?_, ?_, ?_⟩
  · intro hready hhit
    rw [setLogCompactedPayload]
    simp [hready, hhit]
  · intro s' hs'
    rw [setLogCompactedPayload] at hs'
    by_cases hready : s.isReady = true
    · simp only [hready, Bool.not_true, Bool.false_eq_true, if_false] at hs'
      have hgoal : s' = s
          ∨ s'.messagesToApply
              = recordSet s.messagesToApply cid ⟨p, cid, now⟩ ∧ s'.memoryHash = s.memoryHash := by
        cases hlook : s.memoryHash.lookup cid with
        | some h =>
          rw [hlook] at hs'
          dsimp only at hs'
          by_cases heq : hashF p = h
          · rw [if_pos heq] at hs'
            exact Or.inl (Except.ok.inj hs').symm
          · rw [if_neg heq] at hs'
            have := (Except.ok.inj hs').symm
            exact Or.inr ⟨by rw [this], by rw [this]⟩
        | none =>
          rw [hlook] at hs'
          dsimp only at hs'
          have := (Except.ok.inj hs').symm
          exact Or.inr ⟨by rw [this], by rw [this]⟩
      rcases hgoal with rfl | ⟨happly, _⟩
      · exact ⟨fun h => h, fun h => h⟩
      · constructor
        · intro hkeys
          rw [happly]
          exact recordSet_keys_nodup s.messagesToApply cid ⟨p, cid, now⟩ hkeys
        · intro halign
          rw [happly]
          exact recordSet_align s.messagesToApply cid ⟨p, cid, now⟩ rfl halign
    · have : s.isReady = false := by
        cases h : s.isReady
        · rfl
        · exact absurd h hready
      rw [this] at hs'
      simp at hs'
  · intro hkeys halign
    have hidsnodup : ((sortedQueue s).map (·.logCompactId)).Nodup :=
      (sortedQueue_ids_perm_keys s halign).nodup_iff.mpr hkeys
    have hsome : ∀ (l : List (CompactedMsg T)) (b : Bool),
        (l.map (fun e => compactedCall e b)).map (·.shardingKeyArg)
          = (l.map (·.logCompactId)).map some := by
      intro l b
      induction l with
      | nil => rfl
      | cons e l ih => simp [compactedCall, ih]
    by_cases hsucc : (drainCompacted pushOk i (sortedQueue s)).succeeded = true
    · rcases (drainCompacted_char pushOk (sortedQueue s) i).1 hsucc with ⟨_, _, hcalls⟩
      rw [hcalls, hsome]
      exact hidsnodup.map (Option.some_injective String)
    · have hfail : (drainCompacted pushOk i (sortedQueue s)).succeeded = false := by
        cases h : (drainCompacted pushOk i (sortedQueue s)).succeeded
        · rfl
        · exact absurd h hsucc
      rcases (drainCompacted_char pushOk (sortedQueue s) i).2 hfail with
        ⟨j, hj, _, _, hcalls⟩
      rw [hcalls]
      have hjq : j < ((sortedQueue s).map (·.logCompactId)).length := by
        simpa using hj
      have hmapped :
          ((((sortedQueue s).take j).map (fun e => compactedCall e true)
              ++ [compactedCall ((sortedQueue s).get ⟨j, hj⟩) false]).map (·.shardingKeyArg))
            = ((((sortedQueue s).map (·.logCompactId)).take (j + 1)).map some) := by
        rw [List.map_append, hsome]
        have hgetid : (compactedCall ((sortedQueue s).get ⟨j, hj⟩) false).shardingKeyArg
            = some (((sortedQueue s).map (·.logCompactId)).get ⟨j, hjq⟩) := by
          simp [compactedCall, List.get_map]
        have htake : ((sortedQueue s).take j).map (·.logCompactId)
            = ((sortedQueue s).map (·.logCompactId)).take j := by
          rw [List.map_take]
        have hsucctake : ((sortedQueue s).map (·.logCompactId)).take (j + 1)
            = ((sortedQueue s).map (·.logCompactId)).take j
              ++ [((sortedQueue s).map (·.logCompactId)).get ⟨j, hjq⟩] := by
          rw [List.take_succ]
          congr 1
          rw [List.getElem?_eq_getElem hjq]
          rfl
        rw [hsucctake, List.map_append, htake]
        simp [hgetid, compactedCall]
      rw [hmapped]
      have hsub : (((sortedQueue s).map (·.logCompactId)).take (j + 1)).Nodup :=
        List.Nodup.sublist (List.take_sublist _ _) hidsnodup
      exact hsub.map (Option.some_injective String)

/-- Witness for C6 (amended) on a setter that has observed hash "5" for
compaction id "u1": the equal-hash write is dropped outright, and the flush
machinery makes at most one push per id. -/
theorem c6_witness :
    (setterObserved.isReady = true →
        setterObserved.memoryHash.lookup "u1" = some (natHash 5) →
        setLogCompactedPayload natHash 3 setterObserved "u1" 5 = .ok setterObserved)
    ∧ (∀ s', setLogCompactedPayload natHash 3 setterObserved "u1" 5 = .ok s' →
        ((setterObserved.messagesToApply.map Prod.fst).Nodup →
          (s'.messagesToApply.map Prod.fst).Nodup)
        ∧ ((∀ kv ∈ setterObserved.messagesToApply, kv.2.logCompactId = kv.1) →
            ∀ kv ∈ s'.messagesToApply, kv.2.logCompactId = kv.1))
    ∧ ((setterObserved.messagesToApply.map Prod.fst).Nodup →
        (∀ kv ∈ setterObserved.messagesToApply, kv.2.logCompactId = kv.1) →
        ((drainCompacted (fun _ => true) 0 (sortedQueue setterObserved)).calls.map
          (·.shardingKeyArg)).Nodup) :=
  c6_dedup_is_against_observed_history natHash 3 setterObserved "u1" 5 (fun _ => true) 0

/-- Counterexample to C6 as stated: two `setLogCompactedPayload("u1", 5)`
calls with equal hash, separated by a flush and with no concurrent writer,
produce TWO outbound pushes for compaction id "u1" with identical payloads —
`memoryHash` was never updated by the flush, so the second call is not
deduplicated and the setter re-emits a payload whose hash equals the last
emitted hash for the same compaction id. -/
theorem c6_counterexample :
    c6Flush1.calls = [⟨5, some "u1", none, true⟩]
    ∧ c6Flush2.calls = [⟨5, some "u1", none, true⟩]
    ∧ natHash 5 = natHash 5
    ∧ c6Flush1.state.memoryHash = [] := by
  decide

/-- Claim C10: `memoryHash` is mutated only by `processMessage`, and only for
streamed-back messages carrying a (truthy) `logCompactId`; neither
`setLogCompactedPayload` nor `setPayload` nor a flush writes it. -/
theorem c10_memoryhash_only_written_by_processMessage {T : Type} (hashF : T → String)
    (now : Nat) (s : SetterState T) (cid : String) (p : T) (pushOk : Nat → Bool)
    (msg : Msg T) :
    (∀ s', setLogCompactedPayload hashF now s cid p = .ok s' →
        s'.memoryHash = s.memoryHash)
    ∧ (∀ s', setPayload s p = .ok s' → s'.memoryHash = s.memoryHash)
    ∧ (produceWaitingMessages pushOk s).state.memoryHash = s.memoryHash
    ∧ (msg.logCompactId = none → processMessage hashF s msg = s)
    ∧ (msg.logCompactId = some "" → processMessage hashF s msg = s)
    ∧ (∀ lc, msg.logCompactId = some lc → lc ≠ "" →
        processMessage hashF s msg
          = { s with memoryHash := recordSet s.memoryHash lc (hashF msg.payload) }) := by
  refine ⟨?_, ?_, drainAppend_memoryHash_irrelevant pushOk s, ?_, ?_, ?_⟩
  · intro s' hs'
    rw [setLogCompactedPayload] at hs'
    by_cases hready : s.isReady = true
    · simp only [hready, Bool.not_true, Bool.false_eq_true, if_false] at hs'
      cases hlook : s.memoryHash.lookup cid with
      | some h =>
        rw [hlook] at hs'
        dsimp only at hs'
        by_cases heq : hashF p = h
        · rw [if_pos heq] at hs'
          rw [← Except.ok.inj hs']
        · rw [if_neg heq] at hs'
          rw [← Except.ok.inj hs']
      | none =>
        rw [hlook] at hs'
        dsimp only at hs'
        rw [← Except.ok.inj hs']
    · have hf : s.isReady = false := by
        cases h : s.isReady
        · rfl
        · exact absurd h hready
      rw [hf] at hs'
      simp at hs'
  · intro s' hs'
    rw [setPayload] at hs'
    by_cases hready : s.isReady = true
    · simp only [hready, Bool.not_true, Bool.false_eq_true, if_false] at hs'
      rw [← Except.ok.inj hs']
    · have hf : s.isReady = false := by
        cases h : s.isReady
        · rfl
        · exact absurd h hready
      rw [hf] at hs'
      simp at hs'
  · intro hnone
    rw [processMessage, hnone]
  · intro hempty
    rw [processMessage, hempty]
    simp
  · intro lc hlc hne
    rw [processMessage, hlc]
    simp [hne]

/-- Witness for C10 at a concrete setter state and streamed message. -/
theorem c10_witness :
    (∀ s', setLogCompactedPayload natHash 3 setterObserved "u1" 5 = .ok s' →
        s'.memoryHash = setterObserved.memoryHash)
    ∧ (∀ s', setPayload setterObserved 5 = .ok s' →
        s'.memoryHash = setterObserved.memoryHash)
    ∧ (produceWaitingMessages (fun _ => true) setterObserved).state.memoryHash
        = setterObserved.memoryHash
    ∧ ((msgN 1).logCompactId = none → processMessage natHash setterObserved (msgN 1)
        = setterObserved)
    ∧ ((msgN 1).logCompactId = some "" → processMessage natHash setterObserved (msgN 1)
        = setterObserved)
    ∧ (∀ lc, (msgN 1).logCompactId = some lc → lc ≠ "" →
        processMessage natHash setterObserved (msgN 1)
          = { setterObserved with
              memoryHash := recordSet setterObserved.memoryHash lc
                (natHash (msgN 1).payload) }) :=
  c10_memoryhash_only_written_by_processMessage natHash 3 setterObserved "u1" 5
    (fun _ => true) (msgN 1)

end StreamableTopic
